import Mathlib

/-!
Verification development for the Second Mind hypothesis-refinement pipeline.

The Python agents under `src/agents/` are shallowly embedded as executable
Lean definitions: pure string and list manipulation is translated directly,
machine floats are idealised as exact rationals (`ℚ`), Python exceptions are
`Except`/`Option` values, and every external effect (the Gemini text oracle,
web search and scraping, the context-store REST calls, wall-clock time,
`random`) is passed in as an explicit parameter, since those calls leave the
program under verification.

Conventions used throughout:
* a Python `dict` carrying a fixed field set becomes a structure; a field
  accessed with `.get(k, default)` in the source becomes an `Option` field;
* `str.lower()`, `str.split()`, `str.strip()` and friends are modelled by
  the `py*` helpers below, restricted to the ASCII behaviour the pipeline
  relies on;
* `json.loads` is modelled by the executable parser `jsonParse` over the
  `Json` inductive (objects keep their key order as an association list;
  numbers are parsed exactly into `ℚ`).
-/

namespace SecondMind

/-- Apostrophe character, written via its code point so that string literals
in this file stay free of quote-like punctuation. -/
def squote : Char := Char.ofNat 39

/-- The backtick character (code point 96), used to state that a text is
free of markdown fence markers. -/
def backquote : Char := Char.ofNat 96

/-- Opening curly brace character. -/
def lbrace : Char := Char.ofNat 123

/-- Closing curly brace character. -/
def rbrace : Char := Char.ofNat 125

/-- Python `str.lower()` on a single ASCII character. -/
def pyLowerChar (c : Char) : Char := c.toLower

/-- Python `str.lower()`. -/
def pyLower (s : String) : String := String.mk (s.data.map pyLowerChar)

/-- Characters Python `str.strip()` removes (ASCII whitespace). -/
def pyIsSpace (c : Char) : Bool :=
  c = ' ' || c = '\t' || c = '\n' || c = '\r' || c = '\x0b' || c = '\x0c'

/-- Python `str.strip()` (drop ASCII whitespace at both ends). -/
def pyStrip (s : String) : String :=
  String.mk ((s.data.dropWhile pyIsSpace).reverse.dropWhile pyIsSpace |>.reverse)

/-- Python `str.split()` with no argument: split on runs of whitespace,
discarding empty fields. -/
def pySplitWs (s : String) : List String :=
  (s.split (fun c => pyIsSpace c)).filter (fun w => ¬ w.isEmpty)

/-- Python `set(...)` of strings, as the list of first occurrences
(iteration order of a CPython `set` is unspecified; every property proved
below depends only on membership and cardinality). -/
def pySet (l : List String) : List String := l.dedup

/-- Size of the intersection of two Python sets of words,
`len(set(a).intersection(set(b)))`. -/
def pyInterCount (a b : List String) : ℕ :=
  ((a.dedup).filter (fun w => w ∈ b)).length

/-- Size of the union of two Python sets of words. -/
def pyUnionCount (a b : List String) : ℕ :=
  (a.dedup ++ (b.dedup.filter (fun w => w ∉ a))).length

/-- Python substring test `sub in s` on strings. -/
def pyInStr (sub s : String) : Bool :=
  if sub.isEmpty then true else (s.splitOn sub).length ≥ 2

/-- Python `round` to the nearest integer with ties going to the even
integer (banker's rounding), on exact rationals. -/
def pyRoundHalfEven (q : ℚ) : ℤ :=
  let f : ℤ := ⌊q⌋
  let frac : ℚ := q - f
  if frac < 1/2 then f
  else if 1/2 < frac then f + 1
  else if f % 2 = 0 then f else f + 1

/-- Python `round(x, 1)` on exact rationals. -/
def pyRound1 (q : ℚ) : ℚ := (pyRoundHalfEven (q * 10) : ℚ) / 10

/-- Python truthiness of a list (`if xs:`). -/
def pyTruthy {α : Type} (xs : List α) : Bool := ¬ xs.isEmpty

/-! ### JSON values and a model of `json.loads`

`Json` mirrors the values `json.loads` can return; object member order is
retained (CPython dicts preserve insertion order).  `jsonParse` is an
executable recursive-descent parser with explicit fuel; it accepts exactly
the well-formed texts the embedded agents feed to `json.loads` (strings with
the standard escapes, exact decimal numbers with optional exponent, arrays,
objects, `true`/`false`/`null`, surrounding whitespace), and rejects
everything else with `none`, standing for a raised `JSONDecodeError`. -/

inductive Json where
  | null : Json
  | bool (b : Bool) : Json
  | num (q : ℚ) : Json
  | str (s : String) : Json
  | arr (elems : List Json) : Json
  | obj (members : List (String × Json)) : Json

/-- JSON inter-token whitespace. -/
def jsonWs (c : Char) : Bool := c = ' ' || c = '\t' || c = '\n' || c = '\r'

/-- Drop leading JSON whitespace. -/
def skipWs (l : List Char) : List Char := l.dropWhile jsonWs

/-- Hex digit value, if any. -/
def hexVal (c : Char) : Option ℕ :=
  if '0' ≤ c ∧ c ≤ '9' then some (c.toNat - '0'.toNat)
  else if 'a' ≤ c ∧ c ≤ 'f' then some (c.toNat - 'a'.toNat + 10)
  else if 'A' ≤ c ∧ c ≤ 'F' then some (c.toNat - 'A'.toNat + 10)
  else none

/-- Decoded character for a single-character JSON escape, if legal. -/
def jsonUnescape (e : Char) : Option Char :=
  if e = '"' then some '"'
  else if e = '\\' then some '\\'
  else if e = '/' then some '/'
  else if e = 'b' then some '\x08'
  else if e = 'f' then some '\x0c'
  else if e = 'n' then some '\n'
  else if e = 'r' then some '\r'
  else if e = 't' then some '\t'
  else none

/-- Parse the body of a JSON string literal after the opening quote,
returning the decoded characters and the input following the closing
quote.  Escapes: `\" \\ \/ \b \f \n \r \t \uXXXX` (lone surrogates are
not recombined; the pipeline never exercises them). -/
def parseStrBody : ℕ → List Char → Option (List Char × List Char)
  | 0, _ => none
  | _, [] => none
  | fuel + 1, c :: rest =>
    if c = '"' then some ([], rest)
    else if c = '\\' then
      match rest with
      | [] => none
      | e :: rest2 =>
        if e = 'u' then
          match rest2 with
          | a :: b :: c2 :: d :: rest3 =>
            match hexVal a, hexVal b, hexVal c2, hexVal d with
            | some ha, some hb, some hc, some hd =>
              (parseStrBody fuel rest3).map
                (fun p => (Char.ofNat (((ha * 16 + hb) * 16 + hc) * 16 + hd) :: p.1, p.2))
            | _, _, _, _ => none
          | _ => none
        else
          match jsonUnescape e with
          | some ch => (parseStrBody fuel rest2).map (fun p => (ch :: p.1, p.2))
          | none => none
    else (parseStrBody fuel rest).map (fun p => (c :: p.1, p.2))

/-- Take a maximal run of decimal digits. -/
def takeDigits (l : List Char) : List Char × List Char :=
  (l.takeWhile Char.isDigit, l.dropWhile Char.isDigit)

/-- Natural number denoted by a digit run. -/
def digitsToNat (ds : List Char) : ℕ :=
  ds.foldl (fun acc c => acc * 10 + (c.toNat - '0'.toNat)) 0

/-- The exact rational `±(intPart.fracPart) × 10^(±exp)`, assembled with
`mkRat` over integer arithmetic (definitionally computable, unlike field
operations on `ℚ`). -/
def ratOfParts (neg : Bool) (intNat fracNat fracLen : ℕ) (eneg : Bool) (expNat : ℕ) : ℚ :=
  let base : ℤ := ((intNat * 10 ^ fracLen + fracNat : ℕ) : ℤ)
  let num : ℤ := (if neg then -base else base) * (if eneg then 1 else (10 : ℤ) ^ expNat)
  let den : ℕ := 10 ^ fracLen * (if eneg then 10 ^ expNat else 1)
  mkRat num den

/-- Parse a JSON number (`-? digits frac? exp?`) into an exact rational. -/
def parseNum (l : List Char) : Option (ℚ × List Char) :=
  let (neg, l1) : Bool × List Char :=
    match l with
    | '-' :: r => (true, r)
    | _ => (false, l)
  let (intDs, l2) := takeDigits l1
  if intDs.isEmpty then none else
  let (fracDs, l3) : List Char × List Char :=
    match l2 with
    | '.' :: r => takeDigits r
    | _ => ([], l2)
  if l2.head? = some '.' ∧ fracDs.isEmpty then none else
  match l3 with
  | e :: r =>
    if e = 'e' ∨ e = 'E' then
      let (eneg, r1) : Bool × List Char :=
        match r with
        | '+' :: r2 => (false, r2)
        | '-' :: r2 => (true, r2)
        | _ => (false, r)
      let (expDs, r2) := takeDigits r1
      if expDs.isEmpty then none
      else some (ratOfParts neg (digitsToNat intDs) (digitsToNat fracDs) fracDs.length
        eneg (digitsToNat expDs), r2)
    else some (ratOfParts neg (digitsToNat intDs) (digitsToNat fracDs) fracDs.length false 0, l3)
  | [] => some (ratOfParts neg (digitsToNat intDs) (digitsToNat fracDs) fracDs.length false 0, l3)

mutual

/-- Parse one JSON value (fuel-bounded recursive descent; the fuel only
bounds nesting and member count and is chosen generously at the top). -/
def parseVal : ℕ → List Char → Option (Json × List Char)
  | 0, _ => none
  | fuel + 1, l =>
    match skipWs l with
    | [] => none
    | c :: rest =>
      if c = '"' then
        match parseStrBody (rest.length + 1) rest with
        | some (s, r) => some (.str (String.mk s), r)
        | none => none
      else if c = lbrace then parseObjMembers fuel true (skipWs rest)
      else if c = '[' then parseArrElems fuel true (skipWs rest)
      else if c = 't' then
        if rest.take 3 = ['r', 'u', 'e'] then some (.bool true, rest.drop 3) else none
      else if c = 'f' then
        if rest.take 4 = ['a', 'l', 's', 'e'] then some (.bool false, rest.drop 4) else none
      else if c = 'n' then
        if rest.take 3 = ['u', 'l', 'l'] then some (.null, rest.drop 3) else none
      else if c = '-' ∨ c.isDigit then (parseNum (c :: rest)).map (fun p => (.num p.1, p.2))
      else none

/-- Parse the members of a JSON object after `\x7b`; `first` is true before
any member has been read (so a closing brace yields the empty object). -/
def parseObjMembers : ℕ → Bool → List Char → Option (Json × List Char)
  | 0, _, _ => none
  | fuel + 1, first, l =>
    match l with
    | [] => none
    | c :: rest =>
      if c = rbrace ∧ first then some (.obj [], rest)
      else
        match parseVal fuel l with
        | some (.str k, r1) =>
          match skipWs r1 with
          | ':' :: r2 =>
            match parseVal fuel r2 with
            | some (v, r3) =>
              match skipWs r3 with
              | ',' :: r4 =>
                match parseObjMembers fuel false (skipWs r4) with
                | some (.obj ms, r5) => some (.obj ((k, v) :: ms), r5)
                | _ => none
              | c2 :: r4 =>
                if c2 = rbrace then some (.obj [(k, v)], r4) else none
              | [] => none
            | _ => none
          | _ => none
        | _ => none

/-- Parse the elements of a JSON array after `[`. -/
def parseArrElems : ℕ → Bool → List Char → Option (Json × List Char)
  | 0, _, _ => none
  | fuel + 1, first, l =>
    match l with
    | [] => none
    | c :: rest =>
      if c = ']' ∧ first then some (.arr [], rest)
      else
        match parseVal fuel l with
        | some (v, r1) =>
          match skipWs r1 with
          | ',' :: r2 =>
            match parseArrElems fuel false (skipWs r2) with
            | some (.arr vs, r3) => some (.arr (v :: vs), r3)
            | _ => none
          | ']' :: r2 => some (.arr [v], r2)
          | _ => none
        | _ => none

end

/-- Model of Python `json.loads`: parse an entire text as one JSON value,
requiring only whitespace to remain.  `none` stands for a raised
`json.JSONDecodeError`. -/
def jsonParse (s : String) : Option Json :=
  match parseVal (4 * s.length + 8) s.data with
  | some (v, rest) => if skipWs rest = [] then some v else none
  | none => none

/-! ### Generation agent: `_sanitize_json_response`
(src/agents/generation_agent.py, lines 286-332)

The markdown-fence regex is modelled character-exactly: `re.search` takes
the leftmost position admitting a match, the optional `json` tag is tried
first, and the lazy group stops at the first later newline-fence. -/

/-- Split at the first occurrence of a newline followed by three backticks,
returning the characters before it (the lazy group of the fence regex). -/
def fenceTermSplit : List Char → Option (List Char × List Char)
  | [] => none
  | c :: rest =>
    if c = '\n' ∧ rest.take 3 = "```".data then some ([], rest.drop 3)
    else (fenceTermSplit rest).map (fun p => (c :: p.1, p.2))

/-- Try to match the fence pattern at the head of the input. -/
def matchFenceAt (l : List Char) : Option (List Char) :=
  if l.take 8 = "```json\n".data then (fenceTermSplit (l.drop 8)).map (·.1)
  else if l.take 4 = "```\n".data then (fenceTermSplit (l.drop 4)).map (·.1)
  else none

/-- Content of the first markdown code block in the text, if any
(the group of `re.search` with the fence pattern). -/
def findFence : List Char → Option (List Char)
  | [] => none
  | c :: rest =>
    match matchFenceAt (c :: rest) with
    | some inner => some inner
    | none => findFence rest

/-- Lookahead of the first sanitisation substitution: the next character,
if any, must not be whitespace, a comma or a closing bracket. -/
def quoteLookaheadOk : List Char → Bool
  | [] => true
  | n :: _ => ¬ (pyIsSpace n ∨ n = ',' ∨ n = ']' ∨ n = rbrace)

/-- First sanitisation substitution: escape a double quote whose original
predecessor is neither a quote nor a backslash and whose successor fails
`quoteLookaheadOk` to be benign (`prev` tracks the predecessor in the
original text, as the zero-width assertions do). -/
def fixUnescapedQuotes (prev : Option Char) : List Char → List Char
  | [] => []
  | c :: rest =>
    if c = '"' ∧ prev ≠ some '"' ∧ prev ≠ some '\\' ∧ quoteLookaheadOk rest then
      '\\' :: '"' :: fixUnescapedQuotes (some c) rest
    else c :: fixUnescapedQuotes (some c) rest

/-- ASCII word character (regex `\w`). -/
def isWordChar (c : Char) : Bool :=
  c.isAlpha || c.isDigit || c = '_'

/-- Second substitution: a word character followed by a quote and an `s`
becomes the word character, an apostrophe, and the `s`. -/
def fixApostropheS : List Char → List Char
  | a :: '"' :: 's' :: rest =>
    if isWordChar a then a :: squote :: 's' :: fixApostropheS rest
    else a :: fixApostropheS ('"' :: 's' :: rest)
  | c :: rest => c :: fixApostropheS rest
  | [] => []

/-- The `replace` call turning every escaped quote into a doubly escaped
quote. -/
def doubleEscapedQuotes : List Char → List Char
  | '\\' :: '"' :: rest => '\\' :: '\\' :: '"' :: doubleEscapedQuotes rest
  | c :: rest => c :: doubleEscapedQuotes rest
  | [] => []

mutual

/-- Substitution removing a comma (and trailing whitespace) that directly
precedes a closing bracket. -/
def removeTrailingCommas : List Char → List Char
  | [] => []
  | c :: rest =>
    if c = ',' then commaScan [] rest else c :: removeTrailingCommas rest

/-- After a comma, scan forward over whitespace: a closing bracket absorbs
the comma and the whitespace; anything else emits them unchanged and
resumes the outer scan. -/
def commaScan : List Char → List Char → List Char
  | ws, [] => ',' :: ws.reverse
  | ws, c :: rest =>
    if pyIsSpace c then commaScan (c :: ws) rest
    else if c = ']' ∨ c = rbrace then c :: removeTrailingCommas rest
    else if c = ',' then ',' :: ws.reverse ++ commaScan [] rest
    else ',' :: ws.reverse ++ (c :: removeTrailingCommas rest)

end

/-- The repair branch of `_sanitize_json_response`, applied only when the
(possibly fence-stripped) response fails to parse. -/
def sanitizeMangle (response : String) : String :=
  let r1 := String.mk (fixUnescapedQuotes none response.data)
  let r2 := String.mk (fixApostropheS r1.data)
  let r3 := String.mk (r2.data.map (fun c => if c = squote then '"' else c))
  let r4 := String.mk (doubleEscapedQuotes r3.data)
  let r5 := String.mk (removeTrailingCommas r4.data)
  let st := pyStrip r5
  if st.startsWith "\x7b" ∧ st.endsWith "\x7d" ∧
     ¬ (st.startsWith "[" ∧ st.endsWith "]") then
    "[" ++ r5 ++ "]"
  else r5

/-- GenerationAgent._sanitize_json_response: strip a markdown code fence,
return the text unchanged if it already parses, and otherwise apply the
repair substitutions. -/
def sanitizeJsonResponse (response : String) : String :=
  if response.isEmpty then "[]"
  else
    let r :=
      match findFence response.data with
      | some inner => pyStrip (String.mk inner)
      | none => response
    if (jsonParse r).isSome then r else sanitizeMangle r

/-! ### Reflection agent: `_clean_json_response`
(src/agents/reflection_agent.py, lines 527-554) -/

/-- Substitution removing every fence marker tagged `json` together with
the whitespace that follows it. -/
def removeJsonFencesGo : ℕ → List Char → List Char
  | 0, l => l
  | _ + 1, [] => []
  | fuel + 1, c :: rest =>
    if (c :: rest).take 7 = "```json".data then
      removeJsonFencesGo fuel ((rest.drop 6).dropWhile pyIsSpace)
    else c :: removeJsonFencesGo fuel rest

/-- Entry point of the tagged-fence removal (every step strictly shortens
the text, so fuel one beyond the length is never exhausted). -/
def removeJsonFences (l : List Char) : List Char :=
  removeJsonFencesGo (l.length + 1) l

/-- Substitution removing every bare fence marker together with the
whitespace that follows it. -/
def removeFencesGo : ℕ → List Char → List Char
  | 0, l => l
  | _ + 1, [] => []
  | fuel + 1, c :: rest =>
    if (c :: rest).take 3 = "```".data then
      removeFencesGo fuel ((rest.drop 2).dropWhile pyIsSpace)
    else c :: removeFencesGo fuel rest

/-- Entry point of the bare-fence removal. -/
def removeFences (l : List Char) : List Char :=
  removeFencesGo (l.length + 1) l

/-- The greedy brace-span search: the text from the leftmost opening brace
to the rightmost closing brace, when that span is non-degenerate, and the
whole text otherwise. -/
def braceSpan (l : List Char) : List Char :=
  match l.findIdx? (· = lbrace), (l.reverse.findIdx? (· = rbrace)) with
  | some i, some jr =>
    let j := l.length - 1 - jr
    if i < j then (l.drop i).take (j - i + 1) else l
  | _, _ => l

/-- The `replace` call turning every escaped quote into a bare quote. -/
def unescapeQuotes : List Char → List Char
  | '\\' :: '"' :: rest => '"' :: unescapeQuotes rest
  | c :: rest => c :: unescapeQuotes rest
  | [] => []

/-- The `replace` call doubling every backslash. -/
def doubleBackslashes : List Char → List Char
  | '\\' :: rest => '\\' :: '\\' :: doubleBackslashes rest
  | c :: rest => c :: doubleBackslashes rest
  | [] => []

/-- The `replace` call collapsing a doubled escaped quote back to a single
escaped quote. -/
def collapseDoubleEscQuote : List Char → List Char
  | '\\' :: '\\' :: '"' :: rest => '\\' :: '"' :: collapseDoubleEscQuote rest
  | c :: rest => c :: collapseDoubleEscQuote rest
  | [] => []

/-- Lookahead of the lone-backslash substitution: true when the characters
ahead form a legal JSON escape continuation. -/
def escFollows : List Char → Bool
  | [] => false
  | c :: rest =>
    if c = '"' ∨ c = '\\' ∨ c = '/' ∨ c = 'b' ∨ c = 'f' ∨ c = 'n' ∨ c = 'r' ∨ c = 't' then true
    else if c = 'u' then
      match rest with
      | a :: b :: c2 :: d :: _ =>
        (hexVal a).isSome ∧ (hexVal b).isSome ∧ (hexVal c2).isSome ∧ (hexVal d).isSome
      | _ => false
    else false

/-- Substitution doubling a backslash that is not preceded by a backslash
(in the original text) and not followed by an escape continuation. -/
def fixLoneBackslashes (prev : Option Char) : List Char → List Char
  | [] => []
  | c :: rest =>
    if c = '\\' ∧ prev ≠ some '\\' ∧ ¬ escFollows rest then
      '\\' :: '\\' :: fixLoneBackslashes (some c) rest
    else c :: fixLoneBackslashes (some c) rest

/-- ReflectionAgent._clean_json_response: remove fence markers, cut to the
outermost brace span, then apply the escape-sequence rewrites
unconditionally. -/
def cleanJsonResponse (response : String) : String :=
  let r1 := String.mk (removeJsonFences response.data)
  let r2 := String.mk (removeFences r1.data)
  let r3 := String.mk (braceSpan r2.data)
  let r4 := String.mk (unescapeQuotes r3.data)
  let r5 := String.mk (doubleBackslashes r4.data)
  let r6 := String.mk (collapseDoubleEscQuote r5.data)
  String.mk (fixLoneBackslashes none r6.data)

/-! ### Generation agent: hypothesis construction
(src/agents/generation_agent.py)

`GenerationAgent._generate_hypotheses_with_gemini` and its fallbacks are
embedded with the Gemini response, the scraped web items, the `random`
draws and the `int(time.time())` stamp as parameters.  A raised Python
exception (the `float(...)` conversion of a non-numeric confidence, or
`.lower()` on a non-string statement) is an `Except.error`. -/

/-- One scraped web item: the `web_data` dicts built in
`GenerationAgent.process` always carry these three string fields. -/
structure WebItem where
  source : String
  title : String
  content : String

/-- One generated hypothesis record.  `statement` and `rationale` are kept
as raw JSON values because the source stores whatever the parsed entry
contained. -/
structure GHyp where
  id : String
  statement : Json
  confidence : ℚ
  rationale : Json
  sources : List ℕ
  source_urls : List String

/-- Python `str.title()`: uppercase an alphabetic character that starts a
run of alphabetic characters, lowercase the rest. -/
def pyTitleGo (prevAlpha : Bool) : List Char → List Char
  | [] => []
  | c :: rest =>
    (if c.isAlpha then (if prevAlpha then c.toLower else c.toUpper) else c) ::
      pyTitleGo c.isAlpha rest

/-- Python `str.title()`. -/
def pyTitle (s : String) : String := String.mk (pyTitleGo false s.data)

/-- Membership in the punctuation set of `word.strip(...)` used by
`_extract_key_concepts`. -/
def isConceptPunct (c : Char) : Bool :=
  c = '.' ∨ c = ',' ∨ c = '!' ∨ c = '?' ∨ c = '(' ∨ c = ')' ∨
  c = '[' ∨ c = ']' ∨ c = lbrace ∨ c = rbrace

/-- Python `word.strip(punctuation)` for the concept punctuation set. -/
def pyStripPunct (s : String) : String :=
  String.mk ((s.data.dropWhile isConceptPunct).reverse.dropWhile isConceptPunct |>.reverse)

/-- Default concepts returned by `_extract_key_concepts` when no web data
or no concept is available. -/
def conceptDefaults : List String :=
  ["AI in forensics", "Digital forensics", "Forensic investigation"]

/-- Concepts mined from one title: words longer than four characters,
punctuation-stripped and title-cased. -/
def titleConcepts (title : String) : List String :=
  ((pySplitWs title).filter (fun w => 4 < w.length)).map
    (fun w => pyTitle (pyStripPunct w))

/-- Concepts mined from one content text: adjacent-word bigrams longer
than ten characters, punctuation-stripped and title-cased. -/
def contentBigrams (content : String) : List String :=
  let ws := pySplitWs content
  (ws.zip ws.tail).filterMap (fun p =>
    let bg := p.1 ++ " " ++ p.2
    if 10 < bg.length then some (pyTitle (pyStripPunct bg)) else none)

/-- GenerationAgent._extract_key_concepts.  The CPython `set` has an
unspecified iteration order; it is modelled by first-occurrence
deduplication, which preserves membership and cardinality — the only
facts the counting properties below use. -/
def extractKeyConcepts (webData : List WebItem) : List String :=
  if webData.isEmpty then conceptDefaults
  else
    let cs := pySet ((webData.map (fun d => titleConcepts d.title ++ contentBigrams d.content)).flatten)
    if cs.isEmpty then conceptDefaults else cs

/-- One templated concept hypothesis of
`GenerationAgent._generate_hypotheses_fallback` (`rconf i` stands for the
`round(random.uniform(0.5, 0.9), 2)` draw). -/
def conceptHyp (webData : List WebItem) (rconf : ℕ → ℚ) (ts i : ℕ)
    (concept : String) : GHyp :=
  let matched := webData.enum.filter (fun jd => pyInStr (pyLower concept) (pyLower jd.2.content))
  let sourceIdx0 := matched.map (·.1)
  let sourceUrls := matched.map (·.2.source)
  let sourceIdx :=
    if sourceIdx0.isEmpty then (if 2 ≤ webData.length then [0, 1] else [0]) else sourceIdx0
  { id := "hyp-" ++ toString ts ++ "-" ++ toString i
    statement := .str (concept ++ " is a significant factor in the impact of AI on forensic investigations")
    confidence := rconf i
    rationale := .str "This concept appears frequently in relevant sources"
    sources := sourceIdx.take 3
    source_urls := sourceUrls.take 3 }

/-- The fixed hypothesis triple of the fallback's no-concept branch. -/
def fixedDefaultHyps (ts : ℕ) : List GHyp :=
  [{ id := "hyp-" ++ toString ts ++ "-1"
     statement := .str "AI technologies are revolutionizing forensic investigations by automating evidence analysis"
     confidence := 8/10
     rationale := .str "AI can process large volumes of digital evidence faster than humans"
     sources := [0, 1], source_urls := [] },
   { id := "hyp-" ++ toString ts ++ "-2"
     statement := .str "Machine learning algorithms can identify patterns in forensic data that humans might miss"
     confidence := 3/4
     rationale := .str "Pattern recognition is a key strength of modern AI systems"
     sources := [2, 3], source_urls := [] },
   { id := "hyp-" ++ toString ts ++ "-3"
     statement := .str "Ethical concerns about AI in forensics include potential bias and privacy implications"
     confidence := 7/10
     rationale := .str "AI systems can inherit biases from training data"
     sources := [0, 4], source_urls := [] }]

/-- GenerationAgent._generate_hypotheses_fallback: `r` is the
`random.randint(3, 5)` draw; the loop body runs for each `i` below the
(possibly raised) count that is still a valid concept index. -/
def genFallback (webData : List WebItem) (r : ℕ) (rconf : ℕ → ℚ) (ts : ℕ) : List GHyp :=
  let concepts := extractKeyConcepts webData
  let num0 := min concepts.length r
  let num := if num0 < 3 then 3 else num0
  if concepts.isEmpty then fixedDefaultHyps ts
  else
    (List.range num).filterMap (fun i =>
      if i < concepts.length then
        some (conceptHyp webData rconf ts i (concepts.getD i ""))
      else none)

/-- Python dict lookup on a parsed JSON object (later duplicate keys win,
as in `json.loads`). -/
def jsonGet (ms : List (String × Json)) (k : String) : Option Json :=
  (ms.reverse.find? (fun p => p.1 = k)).map (·.2)

/-- Python `k in d` on a parsed JSON object. -/
def jsonHasKey (ms : List (String × Json)) (k : String) : Bool :=
  ms.any (fun p => p.1 = k)

/-- Python `float(str)` restricted to optionally signed decimal literals
with an optional exponent, the only shapes the pipeline's oracle data can
produce (`inf`/`nan`/underscored literals are not modelled). -/
def pyParseFloat (s : String) : Option ℚ :=
  let l := (pyStrip s).data
  let (neg, l1) : Bool × List Char :=
    match l with
    | '-' :: r => (true, r)
    | '+' :: r => (false, r)
    | _ => (false, l)
  let (intDs, l2) := takeDigits l1
  let (fracDs, l3) : List Char × List Char :=
    match l2 with
    | '.' :: r => takeDigits r
    | _ => ([], l2)
  if intDs.isEmpty ∧ fracDs.isEmpty then none else
  match l3 with
  | [] => some (ratOfParts neg (digitsToNat intDs) (digitsToNat fracDs) fracDs.length false 0)
  | e :: r =>
    if e = 'e' ∨ e = 'E' then
      let (eneg, r1) : Bool × List Char :=
        match r with
        | '+' :: r2 => (false, r2)
        | '-' :: r2 => (true, r2)
        | _ => (false, r)
      let (expDs, r2) := takeDigits r1
      if expDs.isEmpty ∨ ¬ r2.isEmpty then none
      else some (ratOfParts neg (digitsToNat intDs) (digitsToNat fracDs) fracDs.length
        eneg (digitsToNat expDs))
    else none

/-- Python `float(x)` on a JSON value; `Except.error` is the raised
`ValueError`/`TypeError`. -/
def pyFloatOfJson : Json → Except Unit ℚ
  | .num q => .ok q
  | .bool b => .ok (if b then 1 else 0)
  | .str s =>
    match pyParseFloat s with
    | some q => .ok q
    | none => .error ()
  | _ => .error ()

/-- Build one hypothesis from a validated parsed entry (an object with
`statement` and `confidence` keys).  The source-linking loop calls
`.lower()` on the statement once per web item, so a non-string statement
raises exactly when web data is non-empty; the confidence is coerced with
`float(...)`, unclamped. -/
def buildParsedHyp (ts i : ℕ) (webData : List WebItem)
    (ms : List (String × Json)) : Except Unit GHyp := do
  let stmt := (jsonGet ms "statement").getD .null
  let matched : List (ℕ × WebItem) ←
    match stmt, webData with
    | _, [] => Except.ok []
    | .str s, wd =>
      Except.ok (wd.enum.filter (fun jd => pyInStr (pyLower s) (pyLower jd.2.content)))
    | _, _ :: _ => Except.error ()
  let conf ← pyFloatOfJson ((jsonGet ms "confidence").getD (.num (1/2)))
  pure
    { id := "hyp-" ++ toString ts ++ "-" ++ toString i
      statement := stmt
      confidence := conf
      rationale := (jsonGet ms "rationale").getD (.str "")
      sources := (matched.map (·.1)).take 3
      source_urls := (matched.map (·.2.source)).take 3 }

/-- The validation-and-build loop over the parsed JSON list: entries that
are not objects with `statement` and `confidence` keys are skipped with a
warning; the enumeration index feeds the id even for skipped entries. -/
def buildHyps (ts : ℕ) (webData : List WebItem) (entries : List Json) :
    Except Unit (List GHyp) :=
  entries.enum.foldlM
    (fun acc ih =>
      match ih.2 with
      | .obj ms =>
        if jsonHasKey ms "statement" ∧ jsonHasKey ms "confidence" then do
          let g ← buildParsedHyp ts ih.1 webData ms
          pure (acc ++ [g])
        else pure acc
      | _ => pure acc)
    []

/-- Capture of the string-value regexes used on malformed JSON: the lazy
part `[^\x22]*(?:\\.[^\x22]*)*` always succeeds on its first attempt, so
the capture runs to the first quote (backslashes included) and the match
consumes the closing quote. -/
def grabToQuote (l : List Char) : Option (List Char × List Char) :=
  let pre := l.takeWhile (fun c => c ≠ '"')
  match l.drop pre.length with
  | _ :: rest => some (pre, rest)
  | [] => none

/-- All non-overlapping captures of `"key"\s*:\s*"(...)"` scanning left to
right (`re.findall`); `fuel` only bounds the scan and is chosen as the
text length at the call site. -/
def findKeyMatches (key : List Char) : ℕ → List Char → List String
  | 0, _ => []
  | _ + 1, [] => []
  | fuel + 1, c :: rest =>
    let l := c :: rest
    let fail := findKeyMatches key fuel rest
    if l.take key.length = key then
      match (l.drop key.length).dropWhile pyIsSpace with
      | ':' :: r2 =>
        match r2.dropWhile pyIsSpace with
        | '"' :: r3 =>
          match grabToQuote r3 with
          | some (cap, r4) => String.mk cap :: findKeyMatches key fuel r4
          | none => fail
        | _ => fail
      | _ => fail
    else fail

/-- One capture of the confidence regex `(0\.\d+|1\.0|1)` at the head of
the input, with the alternatives tried in order. -/
def grabConfNum (l : List Char) : Option (String × List Char) :=
  if l.take 2 = "0.".data then
    let ds := (l.drop 2).takeWhile Char.isDigit
    if ds.isEmpty then none
    else some (String.mk ("0.".data ++ ds), l.drop (2 + ds.length))
  else if l.take 3 = "1.0".data then some ("1.0", l.drop 3)
  else if l.take 1 = "1".data then some ("1", l.drop 1)
  else none

/-- All non-overlapping captures of `"confidence"\s*:\s*(0\.\d+|1\.0|1)`
scanning left to right. -/
def findConfMatches : ℕ → List Char → List String
  | 0, _ => []
  | _ + 1, [] => []
  | fuel + 1, c :: rest =>
    let l := c :: rest
    let key := "\x22confidence\x22".data
    let fail := findConfMatches fuel rest
    if l.take key.length = key then
      match (l.drop key.length).dropWhile pyIsSpace with
      | ':' :: r2 =>
        match grabConfNum (r2.dropWhile pyIsSpace) with
        | some (cap, r4) => cap :: findConfMatches fuel r4
        | none => fail
      | _ => fail
    else fail

/-- The robust-extraction branch run after a `JSONDecodeError`: regex-mine
statements, confidences and rationales; build hypotheses only when
statements and confidences are non-empty and equinumerous.  An empty
result sends the caller to the deterministic fallback. -/
def regexExtractHyps (san : String) (ts : ℕ) : List GHyp :=
  let statements := findKeyMatches "\x22statement\x22".data (san.length + 1) san.data
  let confidences := (findConfMatches (san.length + 1) san.data).map
    (fun c => (pyParseFloat c).getD 0)
  let rationales := findKeyMatches "\x22rationale\x22".data (san.length + 1) san.data
  if ¬ statements.isEmpty ∧ ¬ confidences.isEmpty ∧
     statements.length = confidences.length then
    statements.enum.map (fun is =>
      { id := "hyp-" ++ toString ts ++ "-" ++ toString is.1
        statement := .str is.2
        confidence := confidences.getD is.1 (1/2)
        rationale := .str (rationales.getD is.1 "Extracted from malformed JSON")
        sources := []
        source_urls := [] })
  else []

/-- GenerationAgent._generate_hypotheses_with_gemini, with the raw Gemini
response as a parameter (`none` for a `None` return).  The paths are:
empty response → fallback; sanitised text parses to a list → validate and
build (zero valid entries → fallback); parses to a non-list → fallback;
fails to parse → regex extraction, then fallback. -/
def genHypothesesWithGemini (webData : List WebItem) (resp : Option String)
    (r : ℕ) (rconf : ℕ → ℚ) (ts : ℕ) : Except Unit (List GHyp) :=
  match resp with
  | none => .ok (genFallback webData r rconf ts)
  | some g =>
    if (pyStrip g).isEmpty then .ok (genFallback webData r rconf ts)
    else
      match jsonParse (sanitizeJsonResponse g) with
      | some (.arr entries) => do
        let hyps ← buildHyps ts webData entries
        if hyps.isEmpty then pure (genFallback webData r rconf ts) else pure hyps
      | some _ => .ok (genFallback webData r rconf ts)
      | none =>
        if (regexExtractHyps (sanitizeJsonResponse g) ts).isEmpty then
          .ok (genFallback webData r rconf ts)
        else .ok (regexExtractHyps (sanitizeJsonResponse g) ts)

/-- GenerationAgent.process distilled to its hypothesis outcome.  When the
hypothesis builder raises, the `except` handler builds a single fallback
record, but the summary-storage block that follows reads the local
variable `hypotheses`, which was never bound on that path, so the method
re-raises (`UnboundLocalError`) — modelled by propagating the error. -/
def generationProcess (webData : List WebItem) (resp : Option String)
    (r : ℕ) (rconf : ℕ → ℚ) (ts : ℕ) : Except Unit (List GHyp) :=
  genHypothesesWithGemini webData resp r rconf ts

/-- Return value of `GenerationAgent.generate`. -/
structure GenResult where
  results : List GHyp
  session_id : String

/-- GenerationAgent.generate: the public entry point.  `query = none`
stands for a non-string argument; the guard rejects it and
whitespace-only strings with an empty result and empty session id; any
exception escaping `process` yields the error-session result. -/
def generate (query : Option String) (webData : List WebItem)
    (resp : Option String) (r : ℕ) (rconf : ℕ → ℚ) (ts : ℕ)
    (sid : String) : GenResult :=
  match query with
  | none => { results := [], session_id := "" }
  | some q =>
    if (pyStrip q).isEmpty then { results := [], session_id := "" }
    else
      match generationProcess webData resp r rconf ts with
      | .ok hyps => { results := hyps, session_id := sid }
      | .error _ => { results := [], session_id := "error_session" }

/-! ### Reflection agent
(src/agents/reflection_agent.py)

`ReflectionAgent.process` is embedded with the per-hypothesis Gemini
response as an oracle parameter.  Reflection records keep their field
values as raw JSON (an oracle response is free to put anything there);
a field that is absent — only the empty-response error dict omits the
required fields — is `none`. -/

/-- A hypothesis as the Reflection agent consumes it: the data model
guarantees `id` and `statement` (`_reflect_with_gemini` indexes
`hypothesis["statement"]` directly). -/
structure RHyp where
  id : String
  statement : String

/-- One reflection record; `none` fields are keys the dict does not
carry. -/
structure ReflResult where
  hypothesis_id : String
  is_coherent : Option Json
  coherence_score : Option Json
  has_supporting_evidence : Option Json
  supporting_facts : Option Json
  contradictions : Option Json
  comments : Option Json
  query : Option Json

/-- The error dict returned when Gemini's response is empty: it carries
only `error`, `hypothesis_id` and `query`. -/
def reflErrorDict (hid query : String) : ReflResult :=
  { hypothesis_id := hid
    is_coherent := none
    coherence_score := none
    has_supporting_evidence := none
    supporting_facts := none
    contradictions := none
    comments := none
    query := some (.str query) }

/-- A parsed Gemini reflection after the field-filling loop: every
required field is present, absent ones replaced by the documented
defaults, and `hypothesis_id` overwritten with the hypothesis id. -/
def reflParsedResult (ms : List (String × Json)) (hid query : String) : ReflResult :=
  { hypothesis_id := hid
    is_coherent := some ((jsonGet ms "is_coherent").getD (.bool false))
    coherence_score := some ((jsonGet ms "coherence_score").getD (.num (1/2)))
    has_supporting_evidence := some ((jsonGet ms "has_supporting_evidence").getD (.bool false))
    supporting_facts := some ((jsonGet ms "supporting_facts").getD (.arr []))
    contradictions := some ((jsonGet ms "contradictions").getD (.arr []))
    comments := some ((jsonGet ms "comments").getD (.arr []))
    query := some ((jsonGet ms "query").getD (.str query)) }

/-- Maximal runs of word characters (regex `\b\w+\b` over a lowered
text). -/
def wordRuns : List Char → List String
  | [] => []
  | c :: rest =>
    if isWordChar c then
      let run := c :: rest.takeWhile isWordChar
      String.mk run :: wordRuns (rest.dropWhile isWordChar)
    else wordRuns rest
termination_by l => l.length
decreasing_by
  · exact Nat.lt_succ_of_le (List.Sublist.length_le (List.dropWhile_sublist _))
  · simp

/-- Stop words excluded by `_extract_keywords`. -/
def reflStopWords : List String :=
  ["the", "a", "an", "is", "are", "was", "were", "be", "been",
   "for", "of", "in", "to", "with", "by", "about", "could"]

/-- ReflectionAgent._extract_keywords: long non-stop words plus adjacent
bigrams that are not entirely stop words, as a set (modelled by
first-occurrence deduplication; the stated claims are insensitive to the
unspecified CPython set order). -/
def extractKeywords (text : String) : List String :=
  let words := wordRuns (pyLower text).data
  let keywords := words.filter (fun w => w ∉ reflStopWords ∧ 3 < w.length)
  let ws2 := pySplitWs (pyLower text)
  let bigrams := (ws2.zip ws2.tail).map (fun p => p.1 ++ " " ++ p.2)
  let bigrams := bigrams.filter (fun b => ¬ (pySplitWs b).all (· ∈ reflStopWords))
  pySet (keywords ++ bigrams)

/-- ReflectionAgent._check_coherence. -/
def checkCoherence (statement : String) : Bool :=
  if statement.length < 10 ∨ 500 < statement.length then false
  else
    let sl := pyLower statement
    let pairs := [("increase", "decrease"), ("always", "never"),
                  ("all", "none"), ("positive", "negative")]
    ¬ (pairs.any (fun p => pyInStr p.1 sl ∧ pyInStr p.2 sl) ∧
       ¬ pyInStr "than" sl ∧ ¬ pyInStr "but" sl)

/-- Sentence split `re.split(r'[.!?]', text)` (empty pieces kept). -/
def splitSentences (text : String) : List String :=
  text.split (fun c => c = '.' ∨ c = '!' ∨ c = '?')

/-- Supporting facts mined from one web item: each keyword found in the
content or title contributes the first content sentence containing it,
when that sentence is longer than ten characters. -/
def factsForData (keywords : List String) (d : WebItem) : List (String × String) :=
  let content := pyLower d.content
  let title := pyLower d.title
  keywords.filterMap (fun kw =>
    let k := pyLower kw
    if pyInStr k content ∨ pyInStr k title then
      match (splitSentences content).find? (fun s => pyInStr k (pyLower s)) with
      | some s =>
        let fact := pyStrip s
        if ¬ fact.isEmpty ∧ 10 < fact.length then some (fact, d.source) else none
      | none => none
    else none)

/-- Build the word carrying an apostrophe from its two halves (keeps the
source file free of quoted apostrophes). -/
def aposWord (pre post : String) : String :=
  pre ++ String.singleton squote ++ post

/-- Negation phrases of the rule-based contradiction scan. -/
def reflNegations : List String :=
  ["not", "cannot", aposWord "doesn" "t", aposWord "isn" "t",
   aposWord "won" "t", "never"]

/-- Contradictions mined from one web item: each negation phrase that
precedes some keyword in the content contributes the first sentence
containing such a pair, when longer than ten characters. -/
def contrasForData (keywords : List String) (d : WebItem) : List (String × String) :=
  let content := pyLower d.content
  reflNegations.filterMap (fun ph =>
    if keywords.any (fun kw => pyInStr (ph ++ " " ++ pyLower kw) content) then
      match (splitSentences content).find?
          (fun s => keywords.any (fun kw => pyInStr (ph ++ " " ++ pyLower kw) (pyLower s))) with
      | some s =>
        let con := pyStrip s
        if ¬ con.isEmpty ∧ 10 < con.length then some (con, d.source) else none
      | none => none
    else none)

/-- Encode a fact list as the JSON the rule-based reflection stores. -/
def factsToJson (key : String) (l : List (String × String)) : Json :=
  .arr (l.map (fun p => .obj [(key, .str p.1), ("source", .str p.2)]))

/-- ReflectionAgent._reflect_on_hypothesis: the rule-based fallback
reflection. -/
def reflectOnHypothesis (h : RHyp) (webData : List WebItem) (query : String) : ReflResult :=
  let statement := h.statement
  let isCoh := checkCoherence statement
  let cohScore : ℚ := if isCoh then 8/10 else 2/5
  let keywords := extractKeywords statement
  let facts := ((webData.map (factsForData keywords)).flatten).take 5
  let contras := ((webData.map (contrasForData keywords)).flatten).take 3
  let hasEv := ¬ facts.isEmpty
  let comments : List String :=
    (if ¬ isCoh then ["The hypothesis may not be internally coherent."] else []) ++
    (if ¬ hasEv then ["The hypothesis lacks supporting evidence from the web data."] else []) ++
    (if ¬ contras.isEmpty then ["The hypothesis has contradicting evidence that should be addressed."] else []) ++
    (if isCoh ∧ hasEv ∧ contras.isEmpty then ["The hypothesis is well-supported by the web data."] else [])
  { hypothesis_id := h.id
    is_coherent := some (.bool isCoh)
    coherence_score := some (.num cohScore)
    has_supporting_evidence := some (.bool hasEv)
    supporting_facts := some (factsToJson "fact" facts)
    contradictions := some (factsToJson "contradiction" contras)
    comments := some (.arr (comments.map .str))
    query := some (.str query) }

/-- Case-insensitive presence of any of the alternatives. -/
def anyPhrase (phrases : List String) (text : String) : Bool :=
  phrases.any (fun p => pyInStr p (pyLower text))

/-- ReflectionAgent._extract_reflection_from_text: the unstructured-text
fallback after a parse failure. -/
def extractReflFromText (text : String) (hid query : String) : ReflResult :=
  let isCoh := ¬ anyPhrase ["not coherent", "lacks coherence", "incoherent"] text
  let cohScore : ℚ := if isCoh then 1/2 else 3/10
  let hasEv := anyPhrase ["supporting evidence", "evidence supports", "well supported"] text
  let comments :=
    ((splitSentences text).filterMap (fun s =>
      let st := pyStrip s
      if 15 < st.length ∧ ¬ st.startsWith "\x7b" ∧ ¬ st.startsWith "\x22" then some st
      else none)).take 3
  { hypothesis_id := hid
    is_coherent := some (.bool isCoh)
    coherence_score := some (.num cohScore)
    has_supporting_evidence := some (.bool hasEv)
    supporting_facts := some (.arr [])
    contradictions := some (.arr [])
    comments := some (.arr (comments.map .str))
    query := some (.str query) }

/-- One pass of the per-hypothesis loop body in `ReflectionAgent.process`:
empty oracle response → error dict; parsed object → filled record;
parsed non-object → `TypeError` on item assignment, caught by the
per-hypothesis handler, which runs the rule-based reflection; parse
failure → text extraction. -/
def reflectOneInner (resp : Option String) (h : RHyp) (webData : List WebItem)
    (query : String) : ReflResult :=
  match resp with
  | none => reflErrorDict h.id query
  | some g =>
    if (pyStrip g).isEmpty then reflErrorDict h.id query
    else
      match jsonParse (cleanJsonResponse g) with
      | some (.obj ms) => reflParsedResult ms h.id query
      | some _ => reflectOnHypothesis h webData query
      | none => extractReflFromText g h.id query

/-- The neutral record the outer exception handler synthesises (note it
carries no `query` key). -/
def reflFallbackNeutral (h : RHyp) : ReflResult :=
  { hypothesis_id := h.id
    is_coherent := some (.bool true)
    coherence_score := some (.num (1/2))
    has_supporting_evidence := some (.bool false)
    supporting_facts := some (.arr [])
    contradictions := some (.arr [])
    comments := some (.arr [.str "Failed to complete reflection"])
    query := none }

/-- Context consumed by `ReflectionAgent.process`; `none` marks an absent
key. -/
structure ReflCtx where
  query : Option String
  hypotheses : Option (List RHyp)
  web_data : Option (List WebItem)

/-- ReflectionAgent.process, parameterised by the per-hypothesis oracle
response.  A missing required key raises at validation; building
`hypotheses_to_improve` indexes `r["is_coherent"]`, which raises
`KeyError` exactly when some inner result is the error dict; the outer
handler then replaces the whole result list with one neutral record per
hypothesis, preserving order. -/
def reflectionProcess (oracle : RHyp → Option String) (ctx : ReflCtx) :
    List ReflResult :=
  if ctx.query.isSome ∧ ctx.hypotheses.isSome ∧ ctx.web_data.isSome then
    if ((ctx.hypotheses.getD []).map (fun h =>
          reflectOneInner (oracle h) h (ctx.web_data.getD []) (ctx.query.getD ""))).any
        (fun r => r.is_coherent.isNone) then
      (ctx.hypotheses.getD []).map reflFallbackNeutral
    else
      (ctx.hypotheses.getD []).map (fun h =>
        reflectOneInner (oracle h) h (ctx.web_data.getD []) (ctx.query.getD ""))
  else (ctx.hypotheses.getD []).map reflFallbackNeutral

/-! ### Ranking agent
(src/agents/ranking_agent.py)

Scores are computed over exact rationals.  The credibility oracle (the
Gemini call inside `_calculate_llm_credibility`) is a per-hypothesis
parameter.  Reflection records are taken with numeric scores and list
fields, the shapes the Reflection stage and the documented data model
produce; `hypothesis_id` stays optional because building the reflection
map indexes it unconditionally. -/

/-- A hypothesis as the Ranking agent consumes it. -/
structure RankHyp where
  id : String
  statement : String
  confidence : ℚ

/-- A reflection record as the Ranking agent consumes it; `none` fields
are keys the record does not carry (each has a `.get` default except
`hypothesis_id`). -/
structure RankRefl where
  hypothesis_id : Option String
  coherence_score : Option ℚ
  supporting_facts : Option (List (String × String))
  contradictions : Option (List (String × String))

/-- The six criterion scores. -/
structure RankScores where
  coherence : ℚ
  evidence : ℚ
  relevance : ℚ
  specificity : ℚ
  novelty : ℚ
  llm_credibility : ℚ

/-- A scored hypothesis before rank assignment. -/
structure ScoredHyp where
  hyp : RankHyp
  scores : RankScores
  overall_score : ℚ
  rank_explanation : String

/-- A scored hypothesis with its assigned rank. -/
structure RankedHyp where
  scored : ScoredHyp
  rank : ℕ

/-- RankingAgent._calculate_relevance. -/
def calcRelevance (statement query : String) (webData : List WebItem) : ℚ :=
  let statementWords := pySet (pySplitWs (pyLower statement))
  let queryWords := pySet (pySplitWs (pyLower query))
  let overlap : ℚ :=
    (pyInterCount statementWords queryWords : ℚ) / (max 1 queryWords.length : ℚ)
  let queryTerms := (pySplitWs (pyLower query)).filter (fun w => 3 < w.length)
  let relevantTerms := (pySet queryTerms).filter
    (fun t => webData.any (fun d => pyInStr t (pyLower d.content)))
  let statementLower := pyLower statement
  let coverage : ℚ :=
    if relevantTerms.isEmpty then 0
    else ((relevantTerms.filter (fun t => pyInStr t statementLower)).length : ℚ) /
      (relevantTerms.length : ℚ)
  min 1 (2/5 * overlap + 3/5 * coverage)

/-- Indicator words of `_calculate_specificity`. -/
def specificityIndicators : List String :=
  ["specific", "precisely", "exactly", "particularly",
   "uniquely", "distinct", "specialized", "detailed"]

/-- RankingAgent._calculate_specificity. -/
def calcSpecificity (statement : String) : ℚ :=
  let lengthFactor : ℚ := min 1 ((statement.length : ℚ) / 100)
  let numberFactor : ℚ := if statement.data.any Char.isDigit then 1/5 else 0
  let indicatorFactor : ℚ :=
    1/10 * ((specificityIndicators.filter
      (fun w => pyInStr w (pyLower statement))).length : ℚ)
  min 1 (1/2 * lengthFactor + 3/10 * numberFactor + 1/5 * min 1 indicatorFactor)

/-- RankingAgent._calculate_novelty. -/
def calcNovelty (statement : String) (webData : List WebItem) : ℚ :=
  if webData.isEmpty then 1/2
  else
    let statementWords := pySet (pySplitWs (pyLower statement))
    let sims := webData.map (fun d =>
      let contentWords := pySet (pySplitWs (pyLower d.content))
      (pyInterCount statementWords contentWords : ℚ) /
        (max 1 (pyUnionCount statementWords contentWords) : ℚ))
    if sims.isEmpty then 1/2
    else 1 - sims.sum / (sims.length : ℚ)

/-- RankingAgent._calculate_llm_credibility, with the oracle's raw text
response as a parameter: a parsable float is clamped into `[0, 1]`; an
unparsable, empty or missing response yields the neutral `0.5`. -/
def calcLlmCredibility (resp : Option String) : ℚ :=
  match resp with
  | none => 1/2
  | some r =>
    if r.isEmpty then 1/2
    else
      match pyParseFloat (pyStrip r) with
      | some q => max 0 (min 1 q)
      | none => 1/2

/-- RankingAgent._calculate_scores for one hypothesis. -/
def calcScores (h : RankHyp) (refl : RankRefl) (webData : List WebItem)
    (query : String) (cred : Option String) : RankScores :=
  let facts := refl.supporting_facts.getD []
  let contras := refl.contradictions.getD []
  let evidence0 : ℚ :=
    min 1 ((facts.length : ℚ) * (1/5)) - min (1/2) ((contras.length : ℚ) * (1/5))
  { coherence := refl.coherence_score.getD (1/2)
    evidence := max (1/10) evidence0
    relevance := calcRelevance h.statement query webData
    specificity := calcSpecificity h.statement
    novelty := calcNovelty h.statement webData
    llm_credibility := calcLlmCredibility cred }

/-- Python `str.capitalize()`: first character uppercased, the rest
lowercased. -/
def pyCapitalize (s : String) : String :=
  match s.data with
  | [] => ""
  | c :: rest => String.mk (c.toUpper :: rest.map Char.toLower)

/-- RankingAgent._generate_explanation. -/
def generateExplanation (scores : RankScores) (refl : RankRefl) : String :=
  let facts := refl.supporting_facts.getD []
  let contras := refl.contradictions.getD []
  let parts : List String :=
    [if 8/10 ≤ scores.coherence then "The hypothesis is logically coherent"
     else if 1/2 ≤ scores.coherence then "The hypothesis is somewhat coherent"
     else "The hypothesis lacks logical coherence"] ++
    [if 3 < facts.length then
       "strongly supported by " ++ toString facts.length ++ " pieces of evidence"
     else if 0 < facts.length then
       "supported by " ++ toString facts.length ++ " pieces of evidence"
     else "lacks supporting evidence"] ++
    (if ¬ contras.isEmpty then
       ["has " ++ toString contras.length ++ " contradicting points"] else []) ++
    [if 8/10 ≤ scores.relevance then "highly relevant to the query"
     else if 1/2 ≤ scores.relevance then "moderately relevant to the query"
     else "not very relevant to the query"] ++
    [if 8/10 ≤ scores.llm_credibility then "assessed as highly credible by LLM"
     else if 3/5 ≤ scores.llm_credibility then "assessed as credible by LLM"
     else if 2/5 ≤ scores.llm_credibility then "has mixed credibility according to LLM"
     else "assessed as potentially unreliable by LLM"]
  pyCapitalize (String.intercalate ". " parts) ++ "."

/-- The weighted overall score on the 0-10 scale, rounded to one decimal
(weights: coherence .20, evidence .25, relevance .20, specificity .10,
novelty .10, credibility .15). -/
def overallScore (s : RankScores) : ℚ :=
  pyRound1 (10 * (1/5 * s.coherence + 1/4 * s.evidence + 1/5 * s.relevance +
    1/10 * s.specificity + 1/10 * s.novelty + 3/20 * s.llm_credibility))

/-- Score one hypothesis into its pre-rank record. -/
def scoreHyp (h : RankHyp) (refl : RankRefl) (webData : List WebItem)
    (query : String) (cred : Option String) : ScoredHyp :=
  let scores := calcScores h refl webData query cred
  { hyp := h
    scores := scores
    overall_score := overallScore scores
    rank_explanation := generateExplanation scores refl }

/-- Lookup in the reflection map `{r["hypothesis_id"]: r}` (later
duplicates win, as in a Python dict comprehension). -/
def reflLookup (refls : List RankRefl) (hid : String) : Option RankRefl :=
  refls.reverse.find? (fun r => r.hypothesis_id = some hid)

/-- The synthesized default reflection used by `process` when a
hypothesis has no reflection. -/
def defaultRankRefl (hid : String) : RankRefl :=
  { hypothesis_id := some hid
    coherence_score := some (1/2)
    supporting_facts := some []
    contradictions := some [] }

/-- The scored list of `RankingAgent.process`, in input order (missing
reflections replaced by the neutral default). -/
def rankingScoredList (hyps : List RankHyp) (refls : List RankRefl)
    (webData : List WebItem) (query : String)
    (cred : RankHyp → Option String) : List ScoredHyp :=
  hyps.map (fun h =>
    scoreHyp h ((reflLookup refls h.id).getD (defaultRankRefl h.id)) webData query (cred h))

/-- Comparison handed to the stable sort: `reverse=True` on the
`overall_score` key. -/
def rankLE (a b : ScoredHyp) : Bool := decide (b.overall_score ≤ a.overall_score)

/-- Assign dense ranks starting at `n` (`for i, hyp: hyp["rank"] = i+1`). -/
def assignRanksFrom (n : ℕ) : List ScoredHyp → List RankedHyp
  | [] => []
  | s :: rest => { scored := s, rank := n } :: assignRanksFrom (n + 1) rest

/-- The enumerated stable sort underlying the ranking order: `mergeSort`
is stable, as Python's `list.sort` is, and sorting the enumerated list
with the score-only comparison leaves the second components exactly in
`list.sort` order while exposing each element's pre-sort position. -/
def rankingSortedEnum (scored : List ScoredHyp) : List (ℕ × ScoredHyp) :=
  (scored.enum).mergeSort (List.enumLE rankLE)

/-- Sort descending by `overall_score` (stable) and assign ranks 1..N:
the shared tail of `RankingAgent.process` and `RankingAgent.rank`. -/
def sortAndRank (scored : List ScoredHyp) : List RankedHyp :=
  assignRanksFrom 1 (scored.mergeSort rankLE)

/-- Ranked output of `RankingAgent.process` on valid input. -/
def rankingCore (hyps : List RankHyp) (refls : List RankRefl)
    (webData : List WebItem) (query : String)
    (cred : RankHyp → Option String) : List RankedHyp :=
  sortAndRank (rankingScoredList hyps refls webData query cred)

/-- RankingAgent.rank: the second ranking entry point.  A hypothesis
whose id has no (truthy) reflection in the map is skipped with a warning
rather than scored. -/
def rankingRank (hyps : List RankHyp) (refls : List RankRefl)
    (webData : List WebItem) (query : String)
    (cred : RankHyp → Option String) : List RankedHyp :=
  sortAndRank (hyps.filterMap (fun h =>
    (reflLookup refls h.id).map (fun r => scoreHyp h r webData query (cred h))))

/-- Context consumed and returned by `RankingAgent.process`; `none` marks
an absent key. -/
structure RankCtx where
  query : Option String
  hypotheses : Option (List RankHyp)
  reflection_results : Option (List RankRefl)
  web_data : Option (List WebItem)
  ranked_hypotheses : Option (List RankedHyp)

/-- The in-model exception condition of `RankingAgent.process`: context
validation fails (a required key is absent — `validate_context` is
modelled from the spec, `base_agent.py` not being in the source tree:
a stage's required input keys must all be present), or the reflection-map
comprehension indexes a record with no `hypothesis_id` (`KeyError`). -/
def rankingRaises (ctx : RankCtx) : Bool :=
  ¬ (ctx.query.isSome ∧ ctx.hypotheses.isSome ∧ ctx.reflection_results.isSome ∧
     ctx.web_data.isSome) ∨
  (ctx.reflection_results.getD []).any (fun r => r.hypothesis_id.isNone)

/-- The exception handler's fallback ranking: every input hypothesis gets
overall score 5.0, all six criteria 0.5, rank by input position, and the
fallback explanation. -/
def rankingFallback (hs : List RankHyp) : List RankedHyp :=
  hs.enum.map (fun ih =>
    { scored :=
        { hyp := ih.2
          scores := { coherence := 1/2, evidence := 1/2, relevance := 1/2,
                      specificity := 1/2, novelty := 1/2, llm_credibility := 1/2 }
          overall_score := 5
          rank_explanation := "Fallback ranking due to processing error" }
      rank := ih.1 + 1 })

/-- RankingAgent.process: on an exception the fallback ranking is
installed only when the context has no `ranked_hypotheses` key yet and
does have a `hypotheses` key; otherwise the context is returned
untouched. -/
def rankingProcess (ctx : RankCtx) (cred : RankHyp → Option String) : RankCtx :=
  if rankingRaises ctx then
    if ctx.ranked_hypotheses.isNone ∧ ctx.hypotheses.isSome then
      { ctx with ranked_hypotheses := some (rankingFallback (ctx.hypotheses.getD [])) }
    else ctx
  else
    let out := rankingCore (ctx.hypotheses.getD []) (ctx.reflection_results.getD [])
      (ctx.web_data.getD []) (ctx.query.getD "") cred
    { ctx with ranked_hypotheses := some out }

/-! ### Evolution agent
(src/agents/evolution_agent.py)

The selection rule and `evolve` are embedded directly.
`_refine_hypothesis` mixes `random.choice` draws and secondary web
searches into the rewritten statement, so it enters as the `refine`
parameter; none of the stated claims constrain the rewritten text. -/

/-- A ranked hypothesis as the Evolution agent consumes it (`id` and
`statement` are indexed directly; the other fields are read with `.get`
defaults, kept here as options). -/
structure EHyp where
  id : String
  statement : String
  confidence : Option ℚ
  sources : Option (List ℕ)
  scores_evidence : Option ℚ
  overall_score : Option ℚ
deriving DecidableEq

/-- A reflection record as the Evolution agent consumes it
(`_refine_hypothesis` and `_get_evolution_reason` index these three
fields directly). -/
structure ERefl where
  is_coherent : Bool
  has_supporting_evidence : Bool
  contradictions : List (String × String)
deriving DecidableEq

/-- The lower-rank admission test of `_select_hypotheses_to_evolve`:
good evidence score but overall room for improvement. -/
def selectQualifies (h : EHyp) : Bool :=
  3/5 < h.scores_evidence.getD 0 ∧ h.overall_score.getD 0 < 8

/-- The scan over the non-top hypotheses: append each qualifying id and
break as soon as the selection holds three ids. -/
def selGo (acc : List String) : List EHyp → List String
  | [] => acc
  | h :: t =>
    let acc2 := if selectQualifies h then acc ++ [h.id] else acc
    if 3 ≤ acc2.length then acc2 else selGo acc2 t

/-- EvolutionAgent._select_hypotheses_to_evolve: always the top
hypothesis, then qualifying lower-ranked ones up to three in total. -/
def selectHypothesesToEvolve : List EHyp → List String
  | [] => []
  | top :: rest => selGo [top.id] rest

/-- The evolved hypothesis record built for a selected hypothesis. -/
structure EvolvedHyp where
  id : String
  parent_id : String
  statement : String
  confidence : ℚ
  sources : List ℕ
  evolution_cycle : ℕ
deriving DecidableEq

/-- An element of `evolve`'s output list: either a pass-through of the
original record or a freshly created evolved record. -/
inductive EvOutHyp where
  | orig (h : EHyp)
  | evolved (e : EvolvedHyp)
deriving DecidableEq

/-- The evolution-detail record paired with each evolved hypothesis. -/
structure EvolutionDetail where
  original_id : String
  evolved_id : String
  original_statement : String
  evolved_statement : String
  evolution_reason : String
deriving DecidableEq

/-- EvolutionAgent._get_evolution_reason. -/
def getEvolutionReason (h : EHyp) (refl : ERefl) : String :=
  let reasons : List String :=
    (if ¬ refl.is_coherent then ["improved logical coherence"] else []) ++
    (if ¬ refl.has_supporting_evidence then ["added supporting evidence"] else []) ++
    (if ¬ refl.contradictions.isEmpty then ["addressed contradictions"] else [])
  let reasons :=
    if reasons.isEmpty then
      if h.overall_score.getD 0 < 7 then ["enhanced overall quality"]
      else ["refined with more specific details"]
    else reasons
  "Evolution based on " ++ String.intercalate " and " reasons

/-- The evolved record created for one selected hypothesis. -/
def mkEvolved (h : EHyp) (cycle : ℕ) (stmt : String) : EvolvedHyp :=
  { id := h.id ++ "-evolved-" ++ toString cycle
    parent_id := h.id
    statement := stmt
    confidence := min 1 (h.confidence.getD (1/2) + 1/10)
    sources := h.sources.getD []
    evolution_cycle := cycle }

/-- EvolutionAgent.evolve: walk the ranked list in order; a hypothesis
with no reflection passes through with a warning; a selected hypothesis
yields an evolved record plus a detail; the rest pass through
unchanged. -/
def evolve (toEvolve : List String) (reflMap : String → Option ERefl)
    (cycle : ℕ) (refine : EHyp → ERefl → String) :
    List EHyp → List EvOutHyp × List EvolutionDetail
  | [] => ([], [])
  | h :: t =>
    let rec_ := evolve toEvolve reflMap cycle refine t
    match reflMap h.id with
    | none => (.orig h :: rec_.1, rec_.2)
    | some refl =>
      if h.id ∈ toEvolve then
        let stmt := refine h refl
        let e := mkEvolved h cycle stmt
        let d : EvolutionDetail :=
          { original_id := h.id
            evolved_id := e.id
            original_statement := h.statement
            evolved_statement := stmt
            evolution_reason := getEvolutionReason h refl }
        (.evolved e :: rec_.1, d :: rec_.2)
      else (.orig h :: rec_.1, rec_.2)

/-! ### Meta-Review agent
(src/agents/meta_review_agent.py)

`_analyze_cycle_performance` consumes the per-agent telemetry dict; an
entry whose `execution_time` is missing or fails `float(...)` is skipped
(`none` here). -/

/-- One agent's telemetry entry. -/
structure AgentData where
  execution_time : Option ℚ
  status : Option String
deriving DecidableEq

/-- A reported bottleneck entry. -/
structure Bottleneck where
  agent : String
  time : ℚ
  percentage : ℚ
deriving DecidableEq

/-- The performance-metrics block of `_analyze_cycle_performance`. -/
structure PerfMetrics where
  total_cycle_time : ℚ
  agent_times : List (String × ℚ)
  bottlenecks : List Bottleneck
  successful_agents : List String
  failed_agents : List String
deriving DecidableEq

/-- MetaReviewAgent._analyze_cycle_performance: accumulate per-agent
times and their total, then report as a bottleneck every agent whose
time exceeds a quarter of the total (only when the total is positive),
with its percentage of the total. -/
def analyzeCyclePerformance (outputs : List (String × AgentData)) : PerfMetrics :=
  let times := outputs.filterMap (fun na => na.2.execution_time.map (fun t => (na.1, t)))
  let total : ℚ := (times.map (·.2)).sum
  let succ := outputs.filterMap (fun na =>
    if na.2.execution_time.isSome ∧ na.2.status = some "success" then some na.1 else none)
  let failed := outputs.filterMap (fun na =>
    if na.2.execution_time.isSome ∧ ¬ (na.2.status = some "success") then some na.1 else none)
  let bottlenecks :=
    if 0 < total then
      times.filterMap (fun nt =>
        if 1/4 * total < nt.2 then
          some { agent := nt.1, time := nt.2, percentage := nt.2 / total * 100 }
        else none)
    else []
  { total_cycle_time := total
    agent_times := times
    bottlenecks := bottlenecks
    successful_agents := succ
    failed_agents := failed }

/-! ## Theorems -/

/-- C10: at `GenerationAgent.generate`, an input that is not a string or
strips to the empty string yields `\x7bresults: [], session_id: ""\x7d`
without raising, independently of the oracle, web data, random draws and
time stamp. -/
theorem generate_invalid_query_empty (query : Option String)
    (webData : List WebItem) (resp : Option String) (r : ℕ) (rconf : ℕ → ℚ)
    (ts : ℕ) (sid : String)
    (h : query = none ∨ ∃ q, query = some q ∧ (pyStrip q).isEmpty) :
    generate query webData resp r rconf ts sid =
      { results := [], session_id := "" } := by
  rcases h with h | ⟨q, hq, he⟩
  · subst h; rfl
  · subst hq; simp [generate, he]

/-- Witness for C10 at the whitespace-only query. -/
theorem generate_invalid_query_empty_witness :
    (some "   " = none ∨ ∃ q, some "   " = some q ∧ (pyStrip q).isEmpty) ∧
    generate (some "   ") [] none 3 (fun _ => 0) 0 "sid" =
      { results := [], session_id := "" } :=
  ⟨Or.inr ⟨"   ", rfl, by decide⟩,
   generate_invalid_query_empty _ _ _ _ _ _ _ (Or.inr ⟨"   ", rfl, by decide⟩)⟩

/-- C9: in the cycle-performance analysis, an agent with a recorded
execution time is reported as a bottleneck exactly when that time
exceeds a quarter of the total cycle time (the sum of all recorded
agent times, here nonnegative), and the reported entry carries the
percentage `time / total × 100`. -/
theorem bottleneck_iff_over_quarter (outputs : List (String × AgentData))
    (hnn : ∀ p ∈ (analyzeCyclePerformance outputs).agent_times, 0 ≤ p.2)
    (name : String) (t : ℚ)
    (hmem : (name, t) ∈ (analyzeCyclePerformance outputs).agent_times) :
    (1/4 * (analyzeCyclePerformance outputs).total_cycle_time < t ↔
      ∃ b ∈ (analyzeCyclePerformance outputs).bottlenecks,
        b.agent = name ∧ b.time = t ∧
        b.percentage = t / (analyzeCyclePerformance outputs).total_cycle_time * 100) := by
  simp only [analyzeCyclePerformance] at hnn hmem ⊢
  set times := outputs.filterMap
    (fun na => na.2.execution_time.map (fun u => (na.1, u))) with htimes
  set total : ℚ := (times.map (·.2)).sum with htotal
  have hle : t ≤ total := by
    have : t ∈ times.map (·.2) := List.mem_map.mpr ⟨(name, t), hmem, rfl⟩
    exact List.single_le_sum (fun x hx => by
      rcases List.mem_map.mp hx with ⟨p, hp, rfl⟩
      exact hnn p hp) _ this
  constructor
  · intro hgt
    have hpos : 0 < total := by nlinarith
    refine ⟨{ agent := name, time := t, percentage := t / total * 100 }, ?_, rfl, rfl, rfl⟩
    rw [if_pos hpos]
    exact List.mem_filterMap.mpr ⟨(name, t), hmem, by rw [if_pos hgt]⟩
  · rintro ⟨b, hb, _, hbt, _⟩
    by_cases hpos : 0 < total
    · rw [if_pos hpos] at hb
      rcases List.mem_filterMap.mp hb with ⟨p, _, hp⟩
      by_cases hc : 1/4 * total < p.2
      · rw [if_pos hc] at hp
        have hbp : b.time = p.2 := by rw [← Option.some.inj hp]
        rw [← hbt, hbp]; exact hc
      · rw [if_neg hc] at hp; cases hp
    · rw [if_neg hpos] at hb
      cases hb

/-- Witness for C9 at the documented scenario: generation takes 2.5s of
a 3.7s cycle and is reported with percentage 2500/37 ≈ 67.6. -/
theorem bottleneck_iff_over_quarter_witness :
    (∀ p ∈ (analyzeCyclePerformance
        [("generation", { execution_time := some (5/2), status := some "success" }),
         ("reflection", { execution_time := some (6/5), status := some "success" })]).agent_times,
       0 ≤ p.2) ∧
    ("generation", (5/2 : ℚ)) ∈ (analyzeCyclePerformance
        [("generation", { execution_time := some (5/2), status := some "success" }),
         ("reflection", { execution_time := some (6/5), status := some "success" })]).agent_times ∧
    ∃ b ∈ (analyzeCyclePerformance
        [("generation", { execution_time := some (5/2), status := some "success" }),
         ("reflection", { execution_time := some (6/5), status := some "success" })]).bottlenecks,
      b.agent = "generation" ∧ b.time = 5/2 ∧ b.percentage = 2500/37 := by
  have hat : (analyzeCyclePerformance
      [("generation", { execution_time := some (5/2), status := some "success" }),
       ("reflection", { execution_time := some (6/5), status := some "success" })]).agent_times =
      [("generation", (5 : ℚ)/2), ("reflection", (6 : ℚ)/5)] := rfl
  have hnn : ∀ p ∈ (analyzeCyclePerformance
      [("generation", { execution_time := some (5/2), status := some "success" }),
       ("reflection", { execution_time := some (6/5), status := some "success" })]).agent_times,
      (0 : ℚ) ≤ p.2 := by
    rw [hat]
    intro p hp
    rcases List.mem_cons.mp hp with rfl | hp
    · norm_num
    · rcases List.mem_cons.mp hp with rfl | hp
      · norm_num
      · cases hp
  have hmem : ("generation", (5 : ℚ)/2) ∈ (analyzeCyclePerformance
      [("generation", { execution_time := some (5/2), status := some "success" }),
       ("reflection", { execution_time := some (6/5), status := some "success" })]).agent_times := by
    rw [hat]; exact List.mem_cons_self _ _
  refine ⟨hnn, hmem, ?_⟩
  have h := (bottleneck_iff_over_quarter
    [("generation", { execution_time := some (5/2), status := some "success" }),
     ("reflection", { execution_time := some (6/5), status := some "success" })]
    hnn "generation" (5/2) hmem).mp (by
      simp only [analyzeCyclePerformance, List.filterMap_cons, List.filterMap_nil,
        Option.map_some', List.map_cons, List.map_nil, List.sum_cons, List.sum_nil]
      norm_num)
  rcases h with ⟨b, hb, ha, ht, hp⟩
  refine ⟨b, hb, ha, ht, ?_⟩
  rw [hp]
  simp only [analyzeCyclePerformance, List.filterMap_cons, List.filterMap_nil,
    Option.map_some', List.map_cons, List.map_nil, List.sum_cons, List.sum_nil]
  norm_num

/-- The scanning loop of the evolution selection appends, to a selection
that is not yet full, exactly the first qualifying ids up to the cap of
three total. -/
theorem selGo_spec (t : List EHyp) : ∀ (acc : List String), acc.length < 3 →
    selGo acc t = acc ++ ((t.filter selectQualifies).map (·.id)).take (3 - acc.length) := by
  induction t with
  | nil => intro acc _; simp [selGo]
  | cons h t ih =>
    intro acc hlen
    by_cases hq : selectQualifies h
    · simp only [selGo, hq, if_true]
      by_cases h3 : 3 ≤ (acc ++ [h.id]).length
      · rw [if_pos h3]
        have hl2 : acc.length = 2 := by
          simp only [List.length_append, List.length_cons, List.length_nil] at h3
          omega
        have h32 : 3 - acc.length = 1 := by omega
        simp [List.filter_cons, hq, h32]
      · rw [if_neg h3]
        have hlt : (acc ++ [h.id]).length < 3 := by omega
        rw [ih _ hlt]
        have hstep : 3 - acc.length = (3 - (acc ++ [h.id]).length) + 1 := by
          simp only [List.length_append, List.length_cons, List.length_nil]
          omega
        simp [List.filter_cons, hq, hstep]
    · simp only [selGo, hq, Bool.false_eq_true, if_false]
      rw [if_neg (by omega : ¬ 3 ≤ acc.length)]
      rw [ih acc hlen]
      simp [List.filter_cons, hq]

/-- C6: on a non-empty ranked list the evolution selection is exactly the
rank-1 id followed by the ids of the first (at most two) lower-ranked
hypotheses whose evidence score exceeds 0.6 and whose overall score is
below 8.0, scanned in rank order; the selection always contains the
rank-1 id and never exceeds three ids. -/
theorem select_top_then_qualifying (h : EHyp) (t : List EHyp) :
    selectHypothesesToEvolve (h :: t) =
      h.id :: ((t.filter selectQualifies).map (·.id)).take 2 ∧
    h.id ∈ selectHypothesesToEvolve (h :: t) ∧
    (selectHypothesesToEvolve (h :: t)).length ≤ 3 := by
  have hmain : selectHypothesesToEvolve (h :: t) =
      h.id :: ((t.filter selectQualifies).map (·.id)).take 2 := by
    show selGo [h.id] t = _
    rw [selGo_spec t [h.id] (by simp)]
    simp
  refine ⟨hmain, ?_, ?_⟩
  · rw [hmain]; exact List.mem_cons_self _ _
  · rw [hmain]
    simp only [List.length_cons]
    have := List.length_take_le 2 (((t.filter selectQualifies).map (·.id)))
    omega

/-- C7: every evolved record created by `evolve` points back to a
hypothesis of the input ranked list: its `parent_id` is that hypothesis's
id, its own id is `"{parent}-evolved-{cycle}"`, and its confidence is
`min 1 (parent confidence + 0.1)`. -/
theorem evolve_parent_link (toEvolve : List String)
    (reflMap : String → Option ERefl) (cycle : ℕ)
    (refine_ : EHyp → ERefl → String) :
    ∀ (ranked : List EHyp) (e : EvolvedHyp),
      EvOutHyp.evolved e ∈ (evolve toEvolve reflMap cycle refine_ ranked).1 →
      ∃ parent, parent ∈ ranked ∧ e.parent_id = parent.id ∧
        e.id = parent.id ++ "-evolved-" ++ toString cycle ∧
        e.confidence = min 1 (parent.confidence.getD (1/2) + 1/10) := by
  intro ranked
  induction ranked with
  | nil => intro e he; simp [evolve] at he
  | cons h t ih =>
    intro e he
    simp only [evolve] at he
    cases hro : reflMap h.id with
    | none =>
      simp only [hro] at he
      rcases List.mem_cons.mp he with heq | htail
      · cases heq
      · rcases ih e htail with ⟨p, hp, h1, h2, h3⟩
        exact ⟨p, List.mem_cons_of_mem _ hp, h1, h2, h3⟩
    | some refl =>
      simp only [hro] at he
      by_cases hin : h.id ∈ toEvolve
      · rw [if_pos hin] at he
        rcases List.mem_cons.mp he with heq | htail
        · refine ⟨h, List.mem_cons_self _ _, ?_, ?_, ?_⟩ <;>
            · injection heq with heq2
              subst heq2
              rfl
        · rcases ih e htail with ⟨p, hp, h1, h2, h3⟩
          exact ⟨p, List.mem_cons_of_mem _ hp, h1, h2, h3⟩
      · rw [if_neg hin] at he
        rcases List.mem_cons.mp he with heq | htail
        · cases heq
        · rcases ih e htail with ⟨p, hp, h1, h2, h3⟩
          exact ⟨p, List.mem_cons_of_mem _ hp, h1, h2, h3⟩

/-- Witness for C7: a single selected hypothesis evolves into a record
with the linked parent id, derived id and bumped confidence. -/
theorem evolve_parent_link_witness :
    (EvOutHyp.evolved
        (mkEvolved { id := "h1", statement := "s", confidence := some (95/100), sources := some [4], scores_evidence := some (7/10), overall_score := some 7 } 2 "new") ∈
      (evolve ["h1"]
        (fun _ => some { is_coherent := true, has_supporting_evidence := true, contradictions := [] })
        2 (fun _ _ => "new")
        [{ id := "h1", statement := "s", confidence := some (95/100), sources := some [4], scores_evidence := some (7/10), overall_score := some 7 }]).1) ∧
    (∃ parent : EHyp,
      parent ∈ [{ id := "h1", statement := "s", confidence := some (95/100), sources := some [4], scores_evidence := some (7/10), overall_score := some 7 }] ∧
      (mkEvolved { id := "h1", statement := "s", confidence := some (95/100), sources := some [4], scores_evidence := some (7/10), overall_score := some 7 } 2 "new").parent_id = parent.id ∧
      (mkEvolved { id := "h1", statement := "s", confidence := some (95/100), sources := some [4], scores_evidence := some (7/10), overall_score := some 7 } 2 "new").id =
        parent.id ++ "-evolved-" ++ toString 2 ∧
      (mkEvolved { id := "h1", statement := "s", confidence := some (95/100), sources := some [4], scores_evidence := some (7/10), overall_score := some 7 } 2 "new").confidence =
        min 1 (parent.confidence.getD (1/2) + 1/10)) := by
  have hmem : EvOutHyp.evolved
      (mkEvolved { id := "h1", statement := "s", confidence := some (95/100), sources := some [4], scores_evidence := some (7/10), overall_score := some 7 } 2 "new") ∈
      (evolve ["h1"]
        (fun _ => some { is_coherent := true, has_supporting_evidence := true, contradictions := [] })
        2 (fun _ _ => "new")
        [{ id := "h1", statement := "s", confidence := some (95/100), sources := some [4], scores_evidence := some (7/10), overall_score := some 7 }]).1 := by
    show EvOutHyp.evolved _ ∈
      EvOutHyp.evolved (mkEvolved { id := "h1", statement := "s", confidence := some (95/100), sources := some [4], scores_evidence := some (7/10), overall_score := some 7 } 2 "new") :: []
    exact List.mem_cons_self _ _
  exact ⟨hmem, evolve_parent_link _ _ _ _ _ _ hmem⟩

/-- Every branch of the per-hypothesis reflection body tags its result
with the hypothesis's id. -/
theorem reflectOneInner_id (resp : Option String) (h : RHyp)
    (webData : List WebItem) (query : String) :
    (reflectOneInner resp h webData query).hypothesis_id = h.id := by
  unfold reflectOneInner
  cases resp with
  | none => rfl
  | some g =>
    by_cases he : (pyStrip g).isEmpty
    · simp only [he, if_true]; rfl
    · simp only [he, Bool.false_eq_true, if_false]
      cases jsonParse (cleanJsonResponse g) with
      | none => rfl
      | some j => cases j <;> rfl

/-- C5: the Reflection stage returns exactly one result per input
hypothesis, tagged with that hypothesis's id and in input order, on
every path — oracle success, empty oracle response, parse failure, the
rule-based fallback, and the outer exception handler (which replaces the
batch with neutral defaults when the empty-response error dict is
detected downstream). -/
theorem reflection_one_result_per_hypothesis (oracle : RHyp → Option String)
    (ctx : ReflCtx) :
    (reflectionProcess oracle ctx).map (fun r => r.hypothesis_id) =
      (ctx.hypotheses.getD []).map (fun h => h.id) := by
  unfold reflectionProcess
  split
  · split
    · rw [List.map_map]
      rfl
    · rw [List.map_map]
      exact List.map_congr_left (fun h _ => reflectOneInner_id _ _ _ _)
  · rw [List.map_map]
    rfl

/-- C3 counterexample: Generation stores the oracle's parsed confidence
through `float(...)` with no clamp — the entry `confidence: 1.5` is kept
as 1.5, outside `[0, 1]`. -/
theorem generation_confidence_unclamped_counterexample :
    genHypothesesWithGemini []
        (some "[\x7b\"statement\": \"s\", \"confidence\": 1.5\x7d]") 3 (fun _ => 0) 0 =
      .ok [{ id := "hyp-0-0", statement := .str "s", confidence := mkRat 3 2,
             rationale := .str "", sources := [], source_urls := [] }] ∧
    ¬ ((mkRat 3 2 : ℚ) ≤ 1) :=
  ⟨rfl, by decide⟩

/-- C3 (amended): of the three scores the claim names, only the Ranking
stage's LLM credibility is clamped before storage: it always lies in
`[0, 1]`, whatever text the oracle returns. -/
theorem llm_credibility_clamped (resp : Option String) :
    0 ≤ calcLlmCredibility resp ∧ calcLlmCredibility resp ≤ 1 := by
  unfold calcLlmCredibility
  cases resp with
  | none => norm_num
  | some r =>
    by_cases he : r.isEmpty
    · simp only [he, if_true]; norm_num
    · simp only [he, Bool.false_eq_true, if_false]
      cases pyParseFloat (pyStrip r) with
      | none => norm_num
      | some q =>
        constructor
        · exact le_max_left 0 _
        · exact max_le (by norm_num) (min_le_left 1 q)

/-- C4 counterexample: an exception inside Ranking (here a reflection
record with no `hypothesis_id`, raising `KeyError` in the map build) does
not produce the documented fallback when the incoming context already
carries a `ranked_hypotheses` key — the stale ranking, with overall
score 7 rather than 5, is returned untouched. -/
theorem ranking_exception_keeps_stale_counterexample :
    rankingRaises
      { query := some "q"
        hypotheses := some [{ id := "h1", statement := "s", confidence := mkRat 1 2 }]
        reflection_results := some [{ hypothesis_id := none, coherence_score := none, supporting_facts := none, contradictions := none }]
        web_data := some []
        ranked_hypotheses := some [{ scored := { hyp := { id := "h1", statement := "s", confidence := mkRat 1 2 }, scores := { coherence := mkRat 1 2, evidence := mkRat 1 2, relevance := mkRat 1 2, specificity := mkRat 1 2, novelty := mkRat 1 2, llm_credibility := mkRat 1 2 }, overall_score := 7, rank_explanation := "old" }, rank := 1 }] } = true ∧
    (rankingProcess
      { query := some "q"
        hypotheses := some [{ id := "h1", statement := "s", confidence := mkRat 1 2 }]
        reflection_results := some [{ hypothesis_id := none, coherence_score := none, supporting_facts := none, contradictions := none }]
        web_data := some []
        ranked_hypotheses := some [{ scored := { hyp := { id := "h1", statement := "s", confidence := mkRat 1 2 }, scores := { coherence := mkRat 1 2, evidence := mkRat 1 2, relevance := mkRat 1 2, specificity := mkRat 1 2, novelty := mkRat 1 2, llm_credibility := mkRat 1 2 }, overall_score := 7, rank_explanation := "old" }, rank := 1 }] }
      (fun _ => none)).ranked_hypotheses =
      some [{ scored := { hyp := { id := "h1", statement := "s", confidence := mkRat 1 2 }, scores := { coherence := mkRat 1 2, evidence := mkRat 1 2, relevance := mkRat 1 2, specificity := mkRat 1 2, novelty := mkRat 1 2, llm_credibility := mkRat 1 2 }, overall_score := 7, rank_explanation := "old" }, rank := 1 }] ∧
    ¬ ((7 : ℚ) = 5) :=
  ⟨rfl, rfl, by norm_num⟩

/-- C4 (amended): when an exception is raised inside `RankingAgent.process`
and the incoming context has a `hypotheses` key but no `ranked_hypotheses`
key, the returned context carries the documented fallback: one entry per
input hypothesis in input order, each with overall score 5.0, all six
criterion scores 0.5, rank equal to its input position, and the fallback
explanation. -/
theorem ranking_exception_fallback (ctx : RankCtx) (cred : RankHyp → Option String)
    (hs : List RankHyp)
    (hraise : rankingRaises ctx = true)
    (hnone : ctx.ranked_hypotheses = none)
    (hh : ctx.hypotheses = some hs) :
    (rankingProcess ctx cred).ranked_hypotheses = some (rankingFallback hs) ∧
    (rankingFallback hs).map (fun rh => rh.scored.hyp) = hs ∧
    (rankingFallback hs).map (fun rh => rh.rank) = List.range' 1 hs.length ∧
    ∀ rh ∈ rankingFallback hs,
      rh.scored.overall_score = 5 ∧
      rh.scored.scores = { coherence := 1/2, evidence := 1/2, relevance := 1/2,
                           specificity := 1/2, novelty := 1/2, llm_credibility := 1/2 } ∧
      rh.scored.rank_explanation = "Fallback ranking due to processing error" := by
  refine ⟨?_, ?_, ?_, ?_⟩
  · unfold rankingProcess
    rw [hraise, if_pos rfl, if_pos (by rw [hnone, hh]; exact ⟨rfl, rfl⟩)]
    simp only [hh, Option.getD_some]
  · unfold rankingFallback
    rw [List.map_map]
    have : ((fun rh => rh.scored.hyp) ∘ fun ih =>
        ({ scored := { hyp := ih.2, scores := { coherence := 1/2, evidence := 1/2, relevance := 1/2, specificity := 1/2, novelty := 1/2, llm_credibility := 1/2 }, overall_score := 5, rank_explanation := "Fallback ranking due to processing error" }, rank := ih.1 + 1 } : RankedHyp)) =
        (fun ih : ℕ × RankHyp => ih.2) := rfl
    rw [this, List.enum_map_snd]
  · unfold rankingFallback
    rw [List.map_map]
    have : ((fun rh => rh.rank) ∘ fun ih =>
        ({ scored := { hyp := ih.2, scores := { coherence := 1/2, evidence := 1/2, relevance := 1/2, specificity := 1/2, novelty := 1/2, llm_credibility := 1/2 }, overall_score := 5, rank_explanation := "Fallback ranking due to processing error" }, rank := ih.1 + 1 } : RankedHyp)) =
        (fun ih : ℕ × RankHyp => ih.1 + 1) := rfl
    rw [this, show (fun ih : ℕ × RankHyp => ih.1 + 1) = ((· + 1) ∘ fun ih : ℕ × RankHyp => ih.1)
      from rfl, ← List.map_map, List.enum_map_fst, List.range'_eq_map_range]
    exact List.map_congr_left (fun a _ => Nat.add_comm a 1)
  · intro rh hrh
    unfold rankingFallback at hrh
    rcases List.mem_map.mp hrh with ⟨ih, _, rfl⟩
    exact ⟨rfl, rfl, rfl⟩

/-- Witness for C4 at a context with one hypothesis, a reflection record
lacking `hypothesis_id`, and no pre-existing ranked output. -/
theorem ranking_exception_fallback_witness :
    rankingRaises
      { query := some "q"
        hypotheses := some [{ id := "h1", statement := "s", confidence := mkRat 1 2 }]
        reflection_results := some [{ hypothesis_id := none, coherence_score := none, supporting_facts := none, contradictions := none }]
        web_data := some []
        ranked_hypotheses := none } = true ∧
    (rankingProcess
      { query := some "q"
        hypotheses := some [{ id := "h1", statement := "s", confidence := mkRat 1 2 }]
        reflection_results := some [{ hypothesis_id := none, coherence_score := none, supporting_facts := none, contradictions := none }]
        web_data := some []
        ranked_hypotheses := none }
      (fun _ => none)).ranked_hypotheses =
      some (rankingFallback [{ id := "h1", statement := "s", confidence := mkRat 1 2 }]) ∧
    (rankingFallback [{ id := "h1", statement := "s", confidence := mkRat 1 2 }]).map
      (fun rh => rh.rank) = List.range' 1 1 := by
  have h := ranking_exception_fallback
    { query := some "q"
      hypotheses := some [{ id := "h1", statement := "s", confidence := mkRat 1 2 }]
      reflection_results := some [{ hypothesis_id := none, coherence_score := none, supporting_facts := none, contradictions := none }]
      web_data := some []
      ranked_hypotheses := none }
    (fun _ => none) [{ id := "h1", statement := "s", confidence := mkRat 1 2 }]
    rfl rfl rfl
  exact ⟨rfl, h.1, h.2.2.1⟩

/-- C1 counterexample: a parsed oracle list with a single valid entry
yields exactly one hypothesis — the fallback fires only on zero valid
entries, so the stage can return fewer than three hypotheses. -/
theorem generation_single_entry_counterexample :
    genHypothesesWithGemini []
        (some "[\x7b\"statement\": \"s\", \"confidence\": 0.5\x7d]") 3 (fun _ => 0) 0 =
      .ok [{ id := "hyp-0-0", statement := .str "s", confidence := mkRat 1 2,
             rationale := .str "", sources := [], source_urls := [] }] ∧
    ¬ 3 ≤ ([{ id := "hyp-0-0", statement := Json.str "s", confidence := mkRat 1 2,
              rationale := Json.str "", sources := [], source_urls := [] }] : List GHyp).length :=
  ⟨rfl, by decide⟩

/-- The concept fallback always produces at least one hypothesis: the
concept list is never empty (defaults replace an empty extraction), the
requested count is raised to at least three, and index zero always
passes the bounds check. -/
theorem genFallback_length_pos (webData : List WebItem) (r : ℕ) (rconf : ℕ → ℚ)
    (ts : ℕ) : 1 ≤ (genFallback webData r rconf ts).length := by
  unfold genFallback
  by_cases hc : (extractKeyConcepts webData).isEmpty
  · simp only [hc, if_true]
    simp [fixedDefaultHyps]
  · simp only [hc, Bool.false_eq_true, if_false]
    have hlen : 0 < (extractKeyConcepts webData).length := by
      cases h : extractKeyConcepts webData with
      | nil => rw [h] at hc; simp at hc
      | cons a t => simp
    have hnum : 0 < (if min (extractKeyConcepts webData).length r < 3 then 3
        else min (extractKeyConcepts webData).length r) := by
      split <;> omega
    have hmem : (conceptHyp webData rconf ts 0 ((extractKeyConcepts webData).getD 0 "")) ∈
        (List.range (if min (extractKeyConcepts webData).length r < 3 then 3
          else min (extractKeyConcepts webData).length r)).filterMap (fun i =>
            if i < (extractKeyConcepts webData).length then
              some (conceptHyp webData rconf ts i ((extractKeyConcepts webData).getD i ""))
            else none) := by
      refine List.mem_filterMap.mpr ⟨0, List.mem_range.mpr hnum, ?_⟩
      rw [if_pos hlen]
    exact List.length_pos.mpr (List.ne_nil_of_mem hmem)

/-- C1 (amended): whenever the Generation hypothesis builder returns
normally, it returns at least one hypothesis; the 3–5 bound of the claim
does not hold on every path (see the one-entry counterexample), but no
normal return is empty — every parse outcome with zero usable entries
routes to a fallback that produces at least one record. -/
theorem generation_at_least_one (webData : List WebItem) (resp : Option String)
    (r : ℕ) (rconf : ℕ → ℚ) (ts : ℕ) (hs : List GHyp)
    (h : genHypothesesWithGemini webData resp r rconf ts = .ok hs) :
    1 ≤ hs.length := by
  have ofFallback : genFallback webData r rconf ts = hs → 1 ≤ hs.length := by
    intro hf
    rw [← hf]
    exact genFallback_length_pos _ _ _ _
  have ofNonEmpty : ∀ l : List GHyp, ¬ l.isEmpty = true → l = hs → 1 ≤ hs.length := by
    intro l hne hl
    rw [← hl]
    rcases List.isEmpty_eq_false_iff_exists_mem.mp (by simpa using hne) with ⟨x, hx⟩
    exact List.length_pos.mpr (List.ne_nil_of_mem hx)
  unfold genHypothesesWithGemini at h
  split at h
  · exact ofFallback (Except.ok.inj h)
  · split at h
    · exact ofFallback (Except.ok.inj h)
    · split at h
      · rename_i entries _
        cases hb : buildHyps ts webData entries with
        | error e =>
          rw [hb] at h
          exact absurd h (by intro hcon; cases hcon)
        | ok hyps =>
          rw [hb] at h
          have h4 : (if hyps.isEmpty then (pure (genFallback webData r rconf ts) :
              Except Unit (List GHyp)) else pure hyps) = Except.ok hs := h
          by_cases hhe : hyps.isEmpty
          · rw [if_pos hhe] at h4
            exact ofFallback (Except.ok.inj h4)
          · rw [if_neg hhe] at h4
            exact ofNonEmpty hyps hhe (Except.ok.inj h4)
      · exact ofFallback (Except.ok.inj h)
      · split at h
        · exact ofFallback (Except.ok.inj h)
        · rename_i hne
          exact ofNonEmpty _ (by simpa using hne) (Except.ok.inj h)

/-- Witness for C1's amended bound at an empty oracle response: the
no-evidence fallback yields the three default-concept hypotheses. -/
theorem generation_at_least_one_witness :
    genHypothesesWithGemini [] none 3 (fun _ => mkRat 1 2) 0 =
      .ok (genFallback [] 3 (fun _ => mkRat 1 2) 0) ∧
    1 ≤ (genFallback [] 3 (fun _ => mkRat 1 2) 0).length :=
  ⟨rfl, generation_at_least_one [] none 3 (fun _ => mkRat 1 2) 0 _ rfl⟩

/-- Rank assignment keeps the sorted records unchanged. -/
theorem assignRanksFrom_map_scored (n : ℕ) (l : List ScoredHyp) :
    (assignRanksFrom n l).map (fun rh => rh.scored) = l := by
  induction l generalizing n with
  | nil => rfl
  | cons s rest ih => simp [assignRanksFrom, ih]

/-- Rank assignment attaches consecutive ranks starting at `n`. -/
theorem assignRanksFrom_map_rank (n : ℕ) (l : List ScoredHyp) :
    (assignRanksFrom n l).map (fun rh => rh.rank) = List.range' n l.length := by
  induction l generalizing n with
  | nil => rfl
  | cons s rest ih => simp [assignRanksFrom, ih, List.range']

/-- The score comparison handed to the sort is transitive. -/
theorem rankLE_trans (a b c : ScoredHyp) :
    rankLE a b → rankLE b c → rankLE a c := by
  simp only [rankLE, decide_eq_true_eq]
  exact fun h1 h2 => le_trans h2 h1

/-- The score comparison handed to the sort is total. -/
theorem rankLE_total (a b : ScoredHyp) : rankLE a b || rankLE b a := by
  simp only [rankLE]
  rcases le_total a.overall_score b.overall_score with h | h <;> simp [h]

/-- C2 (amended): at `RankingAgent.process` (where every hypothesis is
scored, missing reflections getting the neutral default), the ranked
output carries exactly the dense ranks 1..N in order; its records are
the stable descending sort of the scored input: the enumerated sorted
list is a permutation of the enumerated scored input, pairwise ordered
by overall score descending with ties keeping the original (pre-sort)
positions in order. -/
theorem ranking_core_dense_stable (hyps : List RankHyp) (refls : List RankRefl)
    (webData : List WebItem) (query : String) (cred : RankHyp → Option String) :
    (rankingCore hyps refls webData query cred).map (fun rh => rh.rank) =
      List.range' 1 hyps.length ∧
    (rankingCore hyps refls webData query cred).map (fun rh => rh.scored) =
      (rankingSortedEnum (rankingScoredList hyps refls webData query cred)).map
        (fun p => p.2) ∧
    (rankingSortedEnum (rankingScoredList hyps refls webData query cred)).Perm
      ((rankingScoredList hyps refls webData query cred).enum) ∧
    List.Pairwise (fun a b => b.2.overall_score ≤ a.2.overall_score ∧
        (a.2.overall_score = b.2.overall_score → a.1 ≤ b.1))
      (rankingSortedEnum (rankingScoredList hyps refls webData query cred)) := by
  refine ⟨?_, ?_, ?_, ?_⟩
  · unfold rankingCore sortAndRank
    rw [assignRanksFrom_map_rank]
    rw [List.length_mergeSort]
    unfold rankingScoredList
    rw [List.length_map]
  · unfold rankingCore sortAndRank rankingSortedEnum
    rw [assignRanksFrom_map_scored]
    exact (@List.mergeSort_enum _ rankLE _).symm
  · exact List.mergeSort_perm _ _
  · have hs := @List.sorted_mergeSort _ (List.enumLE rankLE)
      (fun a b c => List.enumLE_trans (fun x y z => rankLE_trans x y z) a b c)
      (fun a b => List.enumLE_total (fun x y => rankLE_total x y) a b)
      ((rankingScoredList hyps refls webData query cred).enum)
    refine hs.imp ?_
    intro a b hab
    simp only [List.enumLE, rankLE] at hab
    by_cases h1 : b.2.overall_score ≤ a.2.overall_score
    · refine ⟨h1, fun heq => ?_⟩
      have h2 : a.2.overall_score ≤ b.2.overall_score := le_of_eq heq
      simp only [decide_eq_true_eq, if_pos h1, if_pos h2] at hab
      · exact hab
    · simp only [decide_eq_true_eq, if_neg h1] at hab
      exact absurd hab (by simp)

/-- C2 counterexample: at the `RankingAgent.rank` entry point a
hypothesis with no matching reflection is dropped, so one input
hypothesis yields an empty ranked list — not the dense permutation 1..1
the claim requires at every entry point. -/
theorem ranking_rank_skips_counterexample :
    rankingRank [{ id := "h1", statement := "s", confidence := mkRat 1 2 }] [] [] "q"
      (fun _ => none) = [] ∧
    (([] : List RankedHyp).map (fun rh => rh.rank) ≠
      List.range' 1 ([{ id := "h1", statement := "s", confidence := mkRat 1 2 }] : List RankHyp).length) :=
  ⟨by simp [rankingRank, reflLookup, sortAndRank, List.mergeSort_nil, assignRanksFrom],
   by decide⟩

/-- No fence pattern matches at a position whose first character is not a
backtick. -/
theorem matchFenceAt_eq_none (c : Char) (rest : List Char) (hc : c ≠ backquote) :
    matchFenceAt (c :: rest) = none := by
  have h8 : ¬ (c :: rest).take 8 = "```json\n".data := by
    intro h
    rw [List.take_succ_cons] at h
    exact hc (List.cons.injEq .. ▸ h).1
  have h4 : ¬ (c :: rest).take 4 = "```\n".data := by
    intro h
    rw [List.take_succ_cons] at h
    exact hc (List.cons.injEq .. ▸ h).1
  simp only [matchFenceAt, if_neg h8, if_neg h4]

/-- The fence search finds nothing in a backtick-free text. -/
theorem findFence_eq_none (l : List Char) (h : ∀ c ∈ l, c ≠ backquote) :
    findFence l = none := by
  induction l with
  | nil => rfl
  | cons c rest ih =>
    have hm := matchFenceAt_eq_none c rest (h c (List.mem_cons_self c rest))
    simp only [findFence, hm]
    exact ih fun x hx => h x (List.mem_cons_of_mem c hx)

/-- The lazy fence group stops exactly at the closing fence when the body is
backtick-free. -/
theorem fenceTermSplit_append_term (t : List Char) (h : ∀ c ∈ t, c ≠ backquote) :
    fenceTermSplit (t ++ "\n```".data) = some (t, []) := by
  induction t with
  | nil =>
    show fenceTermSplit ('\n' :: "```".data) = some ([], [])
    simp [fenceTermSplit]
  | cons c t ih =>
    have hcond : ¬ (c = '\n' ∧ (t ++ "\n```".data).take 3 = "```".data) := by
      rintro ⟨h1, h2⟩
      cases t with
      | nil => exact absurd h2 (by decide)
      | cons d t =>
        rw [List.cons_append, List.take_succ_cons] at h2
        exact (h d (by simp)) (List.cons.injEq .. ▸ h2).1
    rw [List.cons_append]
    simp only [fenceTermSplit, if_neg hcond,
      ih fun x hx => h x (List.mem_cons_of_mem c hx), Option.map_some']

/-- The fence search on a backtick-free body wrapped in a tagged fence
returns exactly the body. -/
theorem findFence_fenced (t : List Char) (h : ∀ c ∈ t, c ≠ backquote) :
    findFence ("```json\n".data ++ (t ++ "\n```".data)) = some t := by
  have hlen : ("```json\n".data : List Char).length = 8 := rfl
  have hm : matchFenceAt ("```json\n".data ++ (t ++ "\n```".data)) = some t := by
    unfold matchFenceAt
    rw [List.take_left' hlen, List.drop_left' hlen, if_pos rfl,
      fenceTermSplit_append_term t h, Option.map_some']
  have hcons : "```json\n".data ++ (t ++ "\n```".data)
      = backquote :: ("``json\n".data ++ (t ++ "\n```".data)) := rfl
  rw [hcons] at hm ⊢
  simp only [findFence, hm]

/-- C8 (corrected): the round trip holds for the Generation recovery
routine `_sanitize_json_response`, but not for every recovery routine the
spec sentence covers (see the counterexample on
`ReflectionAgent._clean_json_response`).  For every text `t` that parses
as JSON, contains no backtick and carries no surrounding whitespace,
`_sanitize_json_response` returns `t` itself both on the bare text and on
the text wrapped in a tagged markdown fence, so the result parses to the
identical structure. -/
theorem sanitize_round_trip (t : String) (v : Json)
    (hparse : jsonParse t = some v)
    (hnb : ∀ c ∈ t.data, c ≠ backquote)
    (hstrip : pyStrip t = t) :
    sanitizeJsonResponse t = t ∧
    sanitizeJsonResponse ("```json\n" ++ t ++ "\n```") = t ∧
    jsonParse (sanitizeJsonResponse t) = some v ∧
    jsonParse (sanitizeJsonResponse ("```json\n" ++ t ++ "\n```")) = some v := by
  have hne : t.isEmpty = false := by
    cases h0 : t.isEmpty with
    | false => rfl
    | true =>
      rw [(String.isEmpty_iff t).mp h0] at hparse
      exact absurd (show (none : Option Json) = some v from hparse) (by simp)
  have hdata : ("```json\n" ++ t ++ "\n```").data
      = "```json\n".data ++ (t.data ++ "\n```".data) := by
    simp [String.data_append, List.append_assoc]
  have hnef : ("```json\n" ++ t ++ "\n```").isEmpty = false := by
    cases h0 : ("```json\n" ++ t ++ "\n```").isEmpty with
    | false => rfl
    | true =>
      have h1 := congrArg String.data ((String.isEmpty_iff ("```json\n" ++ t ++ "\n```")).mp h0)
      rw [hdata] at h1
      simp at h1
  have hs1 : sanitizeJsonResponse t = t := by
    simp only [sanitizeJsonResponse, hne, Bool.false_eq_true, if_false,
      findFence_eq_none t.data hnb, hparse, Option.isSome_some, if_true]
  have hs2 : sanitizeJsonResponse ("```json\n" ++ t ++ "\n```") = t := by
    simp only [sanitizeJsonResponse, hnef, Bool.false_eq_true, if_false, hdata,
      findFence_fenced t.data hnb]
    rw [show String.mk t.data = t from rfl, hstrip, hparse]
    simp
  exact ⟨hs1, hs2, by rw [hs1]; exact hparse, by rw [hs2]; exact hparse⟩

/-- Witness for C8: the round trip evaluated on a one-field object. -/
theorem sanitize_round_trip_witness :
    jsonParse "\x7b\"a\": 1\x7d" = some (Json.obj [("a", Json.num (mkRat 1 1))]) ∧
    (∀ c ∈ ("\x7b\"a\": 1\x7d" : String).data, c ≠ backquote) ∧
    pyStrip "\x7b\"a\": 1\x7d" = "\x7b\"a\": 1\x7d" ∧
    sanitizeJsonResponse "\x7b\"a\": 1\x7d" = "\x7b\"a\": 1\x7d" ∧
    sanitizeJsonResponse ("```json\n" ++ "\x7b\"a\": 1\x7d" ++ "\n```") = "\x7b\"a\": 1\x7d" ∧
    jsonParse (sanitizeJsonResponse ("```json\n" ++ "\x7b\"a\": 1\x7d" ++ "\n```"))
      = some (Json.obj [("a", Json.num (mkRat 1 1))]) := by
  have h := sanitize_round_trip "\x7b\"a\": 1\x7d" (Json.obj [("a", Json.num (mkRat 1 1))])
    (by rfl) (by decide) (by rfl)
  exact ⟨by rfl, by decide, by rfl, h.1, h.2.1, h.2.2.2⟩

/-- C8 counterexample: `ReflectionAgent._clean_json_response` applies its
escape-sequence rewrites unconditionally, so a well-formed JSON text
containing an escaped quote is mangled into a non-parsing text — the
round trip fails on this recovery routine and the caller takes the
fallback path instead. -/
theorem clean_breaks_escaped_quote_counterexample :
    jsonParse "\x7b\"k\": \"a\\\"b\"\x7d"
      = some (Json.obj [("k", Json.str (String.mk ['a', '"', 'b']))]) ∧
    cleanJsonResponse "\x7b\"k\": \"a\\\"b\"\x7d" = "\x7b\"k\": \"a\"b\"\x7d" ∧
    jsonParse (cleanJsonResponse "\x7b\"k\": \"a\\\"b\"\x7d") = none :=
  ⟨rfl, rfl, rfl⟩

end SecondMind
